import Mathlib

/-!
Verification development for the relative-date resolution engine and ICS codec
of the mcp-labrat calendar server.

The TypeScript source is embedded shallowly:

* JS `Date` / luxon calendar arithmetic is modelled over unbounded integers via
  a proleptic-Gregorian day-number pair `daysFromCivil` / `civilFromDays`
  (IEEE-754 saturation and the ±1e8-day `Date` range are out of scope);
* UTC instants are integers counting seconds since 1970-01-01T00:00:00Z;
* the IANA timezone database consumed by luxon is an explicit parameter
  `tzdb : String → Option ZoneOffsetFn` mapping zone ids to offset functions
  (minutes east of UTC at a given instant); `helsinkiOffset` instantiates it
  for Europe/Helsinki with the EU daylight-saving rule;
* luxon's wall-clock → instant resolution is its `fixOffset` algorithm,
  transcribed;
* fallible code returns `Except`/`Option`; effects (logging, `crypto.randomUUID`,
  the system clock) are explicit parameters.
-/

namespace McpLabrat

/-! ## Proleptic-Gregorian calendar core -/

def yearAdj (y m : Int) : Int := if m ≤ 2 then y - 1 else y

def yoeOf (y m : Int) : Int := yearAdj y m - (yearAdj y m / 400) * 400

/-- Days since 1970-01-01 of a civil date (era-based day-number formula).
    Linear in `d`, so `daysFromCivil y m (d + k)` normalizes the way
    `new Date(y, m - 1, d + k)` does for `m ∈ [1,12]`. -/
def daysFromCivil (y m d : Int) : Int :=
  (yearAdj y m / 400) * 146097 + yoeOf y m * 365 + yoeOf y m / 4 - yoeOf y m / 100
    + (153 * (if m ≤ 2 then m + 9 else m - 3) + 2) / 5 + d - 1 - 719468

/-- Year-of-era for a day-of-era in `[0, 146096]`: divide by 365, clamp at the
    era's end, else adjust down by one when the guess's start-of-year lies past
    `doe`. -/
def yearOfEra (doe : Int) : Int :=
  let y0 := doe / 365
  if 400 ≤ y0 then 399
  else if 365 * y0 + y0 / 4 - y0 / 100 > doe then y0 - 1 else y0

/-- Inverse of `daysFromCivil`: day number to (year, month, day). -/
def civilFromDays (z0 : Int) : Int × Int × Int :=
  let z := z0 + 719468
  let era := z / 146097
  let doe := z - era * 146097
  let yoe := yearOfEra doe
  let doy := doe - (365 * yoe + yoe / 4 - yoe / 100)
  let mp := (5 * doy + 2) / 153
  let d := doy - (153 * mp + 2) / 5 + 1
  let m := if mp < 10 then mp + 3 else mp - 9
  (if m ≤ 2 then (yoe + era * 400) + 1 else yoe + era * 400, m, d)

/-- Length of a Gregorian month. -/
def daysInMonth (y m : Int) : Int :=
  if m = 2 then (if y % 4 = 0 ∧ (y % 100 ≠ 0 ∨ y % 400 = 0) then 29 else 28)
  else if m = 4 ∨ m = 6 ∨ m = 9 ∨ m = 11 then 30 else 31

theorem daysFromCivil_eq (y m d y2 era2 yoe2 a2 b2 f2 : Int)
    (h1 : y2 = if m ≤ 2 then y - 1 else y)
    (h2 : 400 * era2 ≤ y2 ∧ y2 < 400 * era2 + 400)
    (h3 : yoe2 = y2 - era2 * 400)
    (h4 : 4 * a2 ≤ yoe2 ∧ yoe2 < 4 * a2 + 4)
    (h5 : 100 * b2 ≤ yoe2 ∧ yoe2 < 100 * b2 + 100)
    (h6 : 5 * f2 ≤ 153 * (if m ≤ 2 then m + 9 else m - 3) + 2 ∧
          153 * (if m ≤ 2 then m + 9 else m - 3) + 2 < 5 * f2 + 5) :
    daysFromCivil y m d =
      era2 * 146097 + yoe2 * 365 + a2 - b2 + f2 + d - 1 - 719468 := by
  have e1 : y2 / 400 = era2 := by omega
  have e4 : yoe2 / 4 = a2 := by omega
  have e5 : yoe2 / 100 = b2 := by omega
  have e6 : (153 * (if m ≤ 2 then m + 9 else m - 3) + 2) / 5 = f2 := by omega
  simp only [daysFromCivil, yoeOf, yearAdj, ← h1, e1, ← h3, e4, e5, e6]

theorem civil_inv_tail (z era doe yoe a b doy mp f d m y : Int)
    (hE : 146097 * era ≤ z + 719468 ∧ z + 719468 < 146097 * era + 146097)
    (hD : doe = z + 719468 - era * 146097)
    (hA : 4 * a ≤ yoe ∧ yoe < 4 * a + 4)
    (hB : 100 * b ≤ yoe ∧ yoe < 100 * b + 100)
    (hDoy : doy = doe - (365 * yoe + a - b))
    (hMp : 153 * mp ≤ 5 * doy + 2 ∧ 5 * doy + 2 < 153 * mp + 153)
    (hF : 5 * f ≤ 153 * mp + 2 ∧ 153 * mp + 2 < 5 * f + 5)
    (hd : d = doy - f + 1)
    (hm : m = if mp < 10 then mp + 3 else mp - 9)
    (hy : y = if m ≤ 2 then (yoe + era * 400) + 1 else yoe + era * 400)
    (hyoeR : 0 ≤ yoe ∧ yoe ≤ 399)
    (hdoyR : 0 ≤ doy ∧ doy ≤ 365)
    (hleap : doy = 365 →
      (yoe + 1) % 4 = 0 ∧ ((yoe + 1) % 100 ≠ 0 ∨ (yoe + 1) % 400 = 0)) :
    daysFromCivil y m d = z ∧ 1 ≤ m ∧ m ≤ 12 ∧ 1 ≤ d ∧ d ≤ daysInMonth y m := by
  have hmpR : 0 ≤ mp ∧ mp ≤ 11 := by omega
  rcases lt_or_ge mp 10 with h10 | h10
  · rw [if_pos h10] at hm
    have hm2 : ¬ m ≤ 2 := by omega
    rw [if_neg hm2] at hy
    have hdays := daysFromCivil_eq y m d (yoe + era * 400) era yoe a b f
      (by rw [if_neg hm2]; omega) (by omega) (by omega) (by omega) (by omega)
      (by rw [if_neg hm2]; constructor <;> omega)
    refine ⟨by omega, by omega, by omega, by omega, ?_⟩
    unfold daysInMonth
    split_ifs <;> omega
  · rw [if_neg (by omega : ¬ mp < 10)] at hm
    have hm2 : m ≤ 2 := by omega
    rw [if_pos hm2] at hy
    have hdays := daysFromCivil_eq y m d (yoe + era * 400) era yoe a b f
      (by rw [if_pos hm2]; omega) (by omega) (by omega) (by omega) (by omega)
      (by rw [if_pos hm2]; constructor <;> omega)
    refine ⟨by omega, by omega, by omega, by omega, ?_⟩
    unfold daysInMonth
    split_ifs <;> omega

theorem civil_inv_core (z era doe y0 a0 b0 yoe a b doy mp f d m y : Int)
    (hE : 146097 * era ≤ z + 719468 ∧ z + 719468 < 146097 * era + 146097)
    (hD : doe = z + 719468 - era * 146097)
    (hY0 : 365 * y0 ≤ doe ∧ doe < 365 * y0 + 365)
    (hA0 : 4 * a0 ≤ y0 ∧ y0 < 4 * a0 + 4)
    (hB0 : 100 * b0 ≤ y0 ∧ y0 < 100 * b0 + 100)
    (hYoe : yoe = if 400 ≤ y0 then 399
      else if 365 * y0 + a0 - b0 > doe then y0 - 1 else y0)
    (hA : 4 * a ≤ yoe ∧ yoe < 4 * a + 4)
    (hB : 100 * b ≤ yoe ∧ yoe < 100 * b + 100)
    (hDoy : doy = doe - (365 * yoe + a - b))
    (hMp : 153 * mp ≤ 5 * doy + 2 ∧ 5 * doy + 2 < 153 * mp + 153)
    (hF : 5 * f ≤ 153 * mp + 2 ∧ 153 * mp + 2 < 5 * f + 5)
    (hd : d = doy - f + 1)
    (hm : m = if mp < 10 then mp + 3 else mp - 9)
    (hy : y = if m ≤ 2 then (yoe + era * 400) + 1 else yoe + era * 400) :
    daysFromCivil y m d = z ∧ 1 ≤ m ∧ m ≤ 12 ∧ 1 ≤ d ∧ d ≤ daysInMonth y m := by
  have hdoeB : 0 ≤ doe ∧ doe ≤ 146096 := by omega
  split_ifs at hYoe with hc1 hc2
  · -- clamp: y0 = 400, yoe = 399
    have hy0eq : y0 = 400 := by clear hm hy hMp hF hd hD hE hDoy hA hB; omega
    have hab : a = 99 ∧ b = 3 := by clear hm hy hMp hF hd hD hE hDoy; omega
    refine civil_inv_tail z era doe yoe a b doy mp f d m y hE hD hA hB hDoy hMp hF hd hm hy
      (by omega) (by clear hm hy hMp hF hd hD hE; omega) (by omega)
  · -- adjust down: yoe = y0 - 1
    have hab : a ≤ a0 ∧ a0 ≤ a + 1 ∧ b ≤ b0 ∧ b0 ≤ b + 1 := by
      clear hm hy hMp hF hd hD hE hDoy hY0; omega
    refine civil_inv_tail z era doe yoe a b doy mp f d m y hE hD hA hB hDoy hMp hF hd hm hy
      (by clear hm hy hMp hF hd hD hE hDoy; omega)
      (by clear hm hy hMp hF hd hD hE; omega)
      ?_
    intro hdy
    have hab1 : a0 = a + 1 ∧ b0 = b := by clear hm hy hMp hF hd hD hE; omega
    refine ⟨by clear hm hy hMp hF hd hD hE hDoy hY0 hc2; omega,
      Or.inl (by clear hm hy hMp hF hd hD hE hDoy hY0 hc2; omega)⟩
  · -- keep: yoe = y0
    have hab : a = a0 ∧ b = b0 := by clear hm hy hMp hF hd hD hE hDoy hY0; omega
    refine civil_inv_tail z era doe yoe a b doy mp f d m y hE hD hA hB hDoy hMp hF hd hm hy
      (by clear hm hy hMp hF hd hD hE hDoy; omega)
      (by clear hm hy hMp hF hd hD hE; omega)
      (by clear hm hy hMp hF hd hD hE; omega)

theorem div_char (k x : Int) (hk : 0 < k) : k * (x / k) ≤ x ∧ x < k * (x / k) + k := by
  have h1 := Int.ediv_add_emod x k
  have h2 := Int.emod_nonneg x (ne_of_gt hk)
  have h3 := Int.emod_lt_of_pos x hk
  constructor <;> linarith

/-- `civilFromDays` is a section of `daysFromCivil` and always produces a
    range-valid calendar date. -/
theorem civilFromDays_inv_valid (z : Int) :
    daysFromCivil (civilFromDays z).1 (civilFromDays z).2.1 (civilFromDays z).2.2 = z ∧
    1 ≤ (civilFromDays z).2.1 ∧ (civilFromDays z).2.1 ≤ 12 ∧
    1 ≤ (civilFromDays z).2.2 ∧
    (civilFromDays z).2.2 ≤ daysInMonth (civilFromDays z).1 (civilFromDays z).2.1 := by
  exact civil_inv_core z _ _ _ _ _ _ _ _ _ _ _ _ _ _
    (div_char 146097 _ (by norm_num)) rfl (div_char 365 _ (by norm_num))
    (div_char 4 _ (by norm_num)) (div_char 100 _ (by norm_num)) rfl
    (div_char 4 _ (by norm_num)) (div_char 100 _ (by norm_num)) rfl
    (div_char 153 _ (by norm_num)) (div_char 5 _ (by norm_num)) rfl rfl rfl

theorem daysFromCivil_linear (y m d k : Int) :
    daysFromCivil y m (d + k) = daysFromCivil y m d + k := by
  simp only [daysFromCivil]; ring

/-! ## Seconds-level civil time -/

/-- A decomposed UTC or wall-clock reading. -/
structure CivilDateTime where
  year : Int
  month : Int
  day : Int
  hour : Int
  minute : Int
  second : Int
deriving DecidableEq, Repr

def secondsFromCivil (y mo d h mi s : Int) : Int :=
  86400 * daysFromCivil y mo d + 3600 * h + 60 * mi + s

def civilFromSeconds (t : Int) : CivilDateTime :=
  let c := civilFromDays (t / 86400)
  let sod := t % 86400
  ⟨c.1, c.2.1, c.2.2, sod / 3600, sod % 3600 / 60, sod % 60⟩

theorem seconds_civil_inv (t : Int) :
    secondsFromCivil (civilFromSeconds t).year (civilFromSeconds t).month
      (civilFromSeconds t).day (civilFromSeconds t).hour
      (civilFromSeconds t).minute (civilFromSeconds t).second = t := by
  have h := (civilFromDays_inv_valid (t / 86400)).1
  simp only [secondsFromCivil, civilFromSeconds, h]
  omega

theorem civilFromSeconds_hms_valid (t : Int) :
    0 ≤ (civilFromSeconds t).hour ∧ (civilFromSeconds t).hour ≤ 23 ∧
    0 ≤ (civilFromSeconds t).minute ∧ (civilFromSeconds t).minute ≤ 59 ∧
    0 ≤ (civilFromSeconds t).second ∧ (civilFromSeconds t).second ≤ 59 := by
  simp only [civilFromSeconds]
  omega

/-! ## ISO weekdays -/

/-- ISO weekday (1 = Monday … 7 = Sunday) of a day number; day 0
    (1970-01-01) is a Thursday. This is `getDay()` of JS `Date` followed by
    the `jsDay === 0 ? 7 : jsDay` adjustment of the source. -/
def isoWeekdayOfDays (z : Int) : Int := (z + 3) % 7 + 1

theorem isoWeekdayOfDays_range (z : Int) :
    1 ≤ isoWeekdayOfDays z ∧ isoWeekdayOfDays z ≤ 7 := by
  simp only [isoWeekdayOfDays]; omega

/-! ## Weekday registry (`src/utils/weekday.ts`) -/

/-- The canonical weekday set of `weekday.ts` (`WEEKDAYS` / the `Weekday`
    union type). -/
inductive Weekday
  | monday | tuesday | wednesday | thursday | friday | saturday | sunday
deriving DecidableEq, Repr

/-- `WEEKDAY_TO_ISO`: ISO-8601 weekday numbers, Monday = 1 … Sunday = 7. -/
def WEEKDAY_TO_ISO : Weekday → Int
  | .monday => 1
  | .tuesday => 2
  | .wednesday => 3
  | .thursday => 4
  | .friday => 5
  | .saturday => 6
  | .sunday => 7

theorem WEEKDAY_TO_ISO_range (w : Weekday) :
    1 ≤ WEEKDAY_TO_ISO w ∧ WEEKDAY_TO_ISO w ≤ 7 := by
  cases w <;> simp [WEEKDAY_TO_ISO]

/-- `DEFAULT_TIMEZONE` of `weekday.ts`. -/
def DEFAULT_TIMEZONE : String := "Europe/Helsinki"

/-! ## Wall-clock data model (`relativeDateCalculator.ts`) -/

/-- The `WallClockTime` record of the wall-clock module. -/
structure WallClockTime where
  year : Int
  month : Int
  day : Int
  hour : Int
  minute : Int
  second : Int
  timezone : String
deriving DecidableEq, Repr

/-- The `RelativeDateInput` record. -/
structure RelativeDateInput where
  weekOffset : Int
  weekday : Weekday
  time : String
deriving DecidableEq, Repr

/-- Wall-clock reading of a `WallClockTime` as seconds on an (unanchored)
    civil time line. -/
def wallSeconds (wc : WallClockTime) : Int :=
  secondsFromCivil wc.year wc.month wc.day wc.hour wc.minute wc.second

/-! ## Timezone database model

luxon consumes the host's IANA timezone database, which is external to the
repository; it enters the embedding as a parameter mapping zone identifiers to
offset functions (`none` = unrecognized zone, making `DateTime` invalid). -/

/-- Offset function of a zone: minutes east of UTC in effect at a UTC instant. -/
abbrev ZoneOffsetFn := Int → Int

/-- Day of month of the last Sunday of a 31-day month. -/
def lastSundayOfMonth (y m : Int) : Int :=
  31 - isoWeekdayOfDays (daysFromCivil y m 31) % 7

/-- UTC instant (seconds) of the EU spring-forward transition (last Sunday of
    March, 01:00 UTC) in year `y`. -/
def euSpringForward (y : Int) : Int :=
  86400 * daysFromCivil y 3 (lastSundayOfMonth y 3) + 3600

/-- UTC instant of the EU fall-back transition (last Sunday of October,
    01:00 UTC) in year `y`. -/
def euFallBack (y : Int) : Int :=
  86400 * daysFromCivil y 10 (lastSundayOfMonth y 10) + 3600

/-- Europe/Helsinki offset rule: EET (UTC+2, 120 min) in winter, EEST (UTC+3,
    180 min) between the EU transitions. -/
def helsinkiOffset (t : Int) : Int :=
  let y := (civilFromDays (t / 86400)).1
  if euSpringForward y ≤ t ∧ t < euFallBack y then 180 else 120

theorem helsinkiOffset_two_valued (t : Int) :
    helsinkiOffset t = 120 ∨ helsinkiOffset t = 180 := by
  simp only [helsinkiOffset]
  split_ifs <;> simp

/-- The modelled timezone database handed to luxon in concrete scenarios. -/
def stdTzdb : String → Option ZoneOffsetFn := fun s =>
  if s = "Europe/Helsinki" then some helsinkiOffset
  else if s = "UTC" then some (fun _ => 0)
  else none

/-- luxon's `fixOffset` (`objToTS`): resolve a wall-clock reading (seconds) to
    a UTC instant and the offset used, by guessing the offset at the reading
    taken as UTC and correcting at most twice; in a spring-forward hole it
    picks the larger offset. Returns `(instant, offsetMinutes)`. -/
def fixOffset (f : ZoneOffsetFn) (localTS : Int) : Int × Int :=
  let o := f localTS
  let utcGuess := localTS - o * 60
  let o2 := f utcGuess
  if o = o2 then (utcGuess, o)
  else
    let utcGuess2 := utcGuess - (o2 - o) * 60
    let o3 := f utcGuess2
    if o2 = o3 then (utcGuess2, o2)
    else (localTS - (min o2 o3) * 60, max o2 o3)

/-- Wall-clock projection of a UTC instant in a zone (luxon `tsToObj`). -/
def instantToWallSeconds (f : ZoneOffsetFn) (t : Int) : Int := t + f t * 60

/-- If a wall-clock reading occurs in a zone whose offset function takes at
    most two values, luxon's `fixOffset` finds an instant that projects back to
    exactly that reading. -/
theorem fixOffset_exact (f : ZoneOffsetFn) (va vb w : Int)
    (htv : ∀ t, f t = va ∨ f t = vb)
    (hocc : ∃ t, instantToWallSeconds f t = w) :
    instantToWallSeconds f (fixOffset f w).1 = w := by
  obtain ⟨t0, ht0⟩ := hocc
  simp only [instantToWallSeconds] at ht0 ⊢
  have ht0' : t0 = w - f t0 * 60 := by omega
  simp only [fixOffset]
  by_cases h1 : f w = f (w - f w * 60)
  · simp only [if_pos h1]
    omega
  · simp only [if_neg h1]
    have hs : w - f w * 60 - (f (w - f w * 60) - f w) * 60 = w - f (w - f w * 60) * 60 := by
      ring
    by_cases h2 : f (w - f w * 60) = f (w - f w * 60 - (f (w - f w * 60) - f w) * 60)
    · simp only [if_pos h2]
      rw [hs] at h2 ⊢
      omega
    · -- hole branch: impossible when the reading occurs
      exfalso
      rw [hs] at h2
      have hfp : f (w - f t0 * 60) = f t0 := by rw [← ht0']
      by_cases hA : f w = f t0
      · exact h1 (by rw [hA]; exact hfp.symm)
      · have hBt : f (w - f w * 60) = f t0 := by
          rcases htv w with h | h <;> rcases htv t0 with h' | h' <;>
            rcases htv (w - f w * 60) with h'' | h'' <;> omega
        exact h2 (by rw [hBt]; exact hfp.symm)

/-! ## Relative date resolver (`part_004` revision of `relativeDateCalculator.ts`) -/

/-- Errors thrown by the resolver. -/
inductive CalcError
  | invalidTimeFormat (time : String)
  | invalidWallClock
  | invalidZone
  | inconsistency (got : Int) (expected : Int)
deriving DecidableEq, Repr

/-- `\d` of the JS regexes: a character with code in `['0', '9']`. -/
def isDigitChar (c : Char) : Bool := decide (48 ≤ c.toNat ∧ c.toNat ≤ 57)

def digVal (c : Char) : Int := (c.toNat : Int) - 48

theorem digVal_range (c : Char) (h : isDigitChar c = true) :
    0 ≤ digVal c ∧ digVal c ≤ 9 := by
  simp only [isDigitChar, decide_eq_true_iff] at h
  simp only [digVal]
  omega

/-- `parseHHmm`: match `/^(\d{2}):(\d{2})$/`, `parseInt` both groups, reject
    out-of-range hours/minutes. -/
def parseHHmm (time : String) : Option (Int × Int) :=
  match time.data with
  | [c1, c2, c, c3, c4] =>
    if c = ':' ∧ isDigitChar c1 ∧ isDigitChar c2 ∧ isDigitChar c3 ∧ isDigitChar c4 then
      if 10 * digVal c1 + digVal c2 < 0 ∨ 10 * digVal c1 + digVal c2 > 23 ∨
          10 * digVal c3 + digVal c4 < 0 ∨ 10 * digVal c3 + digVal c4 > 59 then none
      else some (10 * digVal c1 + digVal c2, 10 * digVal c3 + digVal c4)
    else none
  | _ => none

theorem parseHHmm_ranges (t : String) (h mi : Int)
    (hp : parseHHmm t = some (h, mi)) :
    0 ≤ h ∧ h ≤ 23 ∧ 0 ≤ mi ∧ mi ≤ 59 := by
  unfold parseHHmm at hp
  split at hp
  · split_ifs at hp with h1 h2 <;> simp at hp <;> omega
  · exact absurd hp (by simp)

/-- `getISOWeekdayFromWallClock`: weekday of
    `new Date(wc.year, wc.month - 1, wc.day)`. -/
def getISOWeekdayFromWallClock (wc : WallClockTime) : Int :=
  isoWeekdayOfDays (daysFromCivil wc.year wc.month wc.day)

/-- Field-range validity of `DateTime.fromObject` (luxon marks the result
    invalid exactly when a unit is out of range). -/
def luxonValidFields (y mo d h mi s : Int) : Bool :=
  decide (1 ≤ mo ∧ mo ≤ 12 ∧ 1 ≤ d ∧ d ≤ daysInMonth y mo ∧
    0 ≤ h ∧ h ≤ 23 ∧ 0 ≤ mi ∧ mi ≤ 59 ∧ 0 ≤ s ∧ s ≤ 59)

/-- `wallClockToUTC` (luxon revision): `DateTime.fromObject(fields, {zone})`,
    throw on an invalid result, else `toJSDate()`. -/
def wallClockToUTC (tzdb : String → Option ZoneOffsetFn)
    (wallClock : WallClockTime) : Except CalcError Int :=
  match tzdb wallClock.timezone with
  | none => .error .invalidZone
  | some f =>
    if luxonValidFields wallClock.year wallClock.month wallClock.day
        wallClock.hour wallClock.minute wallClock.second
    then .ok (fixOffset f (wallSeconds wallClock)).1
    else .error .invalidWallClock

/-- `calculateAbsoluteDateFromWallClock`: validate the time, compute the
    day offset `weekOffset * 7 + (targetIso - currentIso)`, build the target
    date with `new Date(year, month - 1, day + totalDaysOffset)`, self-check
    the weekday, and convert with `wallClockToUTC`. -/
def calculateAbsoluteDateFromWallClock (tzdb : String → Option ZoneOffsetFn)
    (wallClockNow : WallClockTime) (input : RelativeDateInput) :
    Except CalcError Int :=
  match parseHHmm input.time with
  | none => .error (.invalidTimeFormat input.time)
  | some (hours, minutes) =>
    let targetISOWeekday := WEEKDAY_TO_ISO input.weekday
    let currentISOWeekday := getISOWeekdayFromWallClock wallClockNow
    let daysToTargetInWeek := targetISOWeekday - currentISOWeekday
    let totalDaysOffset := input.weekOffset * 7 + daysToTargetInWeek
    let targetDate :=
      civilFromDays (daysFromCivil wallClockNow.year wallClockNow.month
        (wallClockNow.day + totalDaysOffset))
    let resultWallClock : WallClockTime :=
      ⟨targetDate.1, targetDate.2.1, targetDate.2.2, hours, minutes, 0,
        wallClockNow.timezone⟩
    let resultISOWeekday := getISOWeekdayFromWallClock resultWallClock
    if resultISOWeekday ≠ targetISOWeekday
    then .error (.inconsistency resultISOWeekday targetISOWeekday)
    else wallClockToUTC tzdb resultWallClock

/-- The wall-clock reading the resolver computes before converting to UTC:
    the reference date shifted by `weekOffset * 7 + (targetIso - referenceIso)`
    days, with the requested time of day and the reference timezone. -/
def resolvedWallClock (wallClockNow : WallClockTime) (wd : Weekday)
    (weekOffset hours minutes : Int) : WallClockTime :=
  let totalDaysOffset :=
    weekOffset * 7 + (WEEKDAY_TO_ISO wd - getISOWeekdayFromWallClock wallClockNow)
  let td := civilFromDays (daysFromCivil wallClockNow.year wallClockNow.month
    (wallClockNow.day + totalDaysOffset))
  ⟨td.1, td.2.1, td.2.2, hours, minutes, 0, wallClockNow.timezone⟩

/-- The self-check weekday of the resolver's target always equals the
    requested ISO weekday. -/
theorem resolved_weekday (wallClockNow : WallClockTime) (wd : Weekday)
    (weekOffset hours minutes : Int) :
    getISOWeekdayFromWallClock
        (resolvedWallClock wallClockNow wd weekOffset hours minutes) =
      WEEKDAY_TO_ISO wd := by
  have hT := WEEKDAY_TO_ISO_range wd
  simp only [resolvedWallClock, getISOWeekdayFromWallClock]
  have hinv := (civilFromDays_inv_valid
    (daysFromCivil wallClockNow.year wallClockNow.month
      (wallClockNow.day +
        (weekOffset * 7 +
          (WEEKDAY_TO_ISO wd -
            isoWeekdayOfDays (daysFromCivil wallClockNow.year wallClockNow.month
              wallClockNow.day)))))).1
  rw [hinv, daysFromCivil_linear]
  simp only [isoWeekdayOfDays]
  omega

/-- Unfolding of the resolver on a well-formed time: it returns
    `wallClockToUTC` of `resolvedWallClock` (the self-check never fires). -/
theorem calc_eq_resolved (tzdb : String → Option ZoneOffsetFn)
    (wallClockNow : WallClockTime) (input : RelativeDateInput)
    (h mi : Int) (hp : parseHHmm input.time = some (h, mi)) :
    calculateAbsoluteDateFromWallClock tzdb wallClockNow input =
      wallClockToUTC tzdb
        (resolvedWallClock wallClockNow input.weekday input.weekOffset h mi) := by
  have hw := resolved_weekday wallClockNow input.weekday input.weekOffset h mi
  simp only [resolvedWallClock] at hw ⊢
  simp only [calculateAbsoluteDateFromWallClock, hp]
  rw [if_neg (not_ne_iff.mpr hw)]

/-- Field-range validity of a `WallClockTime` (what luxon's `fromObject`
    checks). Also delimits the domain on which the embedding's calendar
    arithmetic is faithful to JS `Date` (months 1–12). -/
def WallClockTime.fieldsValid (wc : WallClockTime) : Bool :=
  luxonValidFields wc.year wc.month wc.day wc.hour wc.minute wc.second

/-- A `WallClockTime` denotes an actual calendar reading: decomposing its own
    second count returns its fields. This is the "valid calendar date"
    condition in fixpoint form. -/
def WallClockTime.canonical (wc : WallClockTime) : Prop :=
  civilFromSeconds (wallSeconds wc) =
    ⟨wc.year, wc.month, wc.day, wc.hour, wc.minute, wc.second⟩

instance (wc : WallClockTime) : Decidable wc.canonical := by
  unfold WallClockTime.canonical; infer_instance

/-! ## Duration calculator (`calculateEndDate`)

`calculateEndDate` copies the start `Date` and calls
`endDate.setMinutes(endDate.getMinutes() + durationMinutes)`. Per ECMA-262,
`getMinutes`/`setMinutes` read and rebuild the broken-down *local* time in the
host process's timezone: the updated timestamp is
`UTC(LocalTime(start) + durationMinutes * 60)`, where `UTC` maps a local
reading back using, for repeated or skipped local times, the offset in effect
just before the transition. The host zone is ambient state of the process and
enters the embedding as a parameter. -/

/-- A host timezone: instant-offset function plus its standard (`loOff`) and
    daylight (`hiOff`) offsets in minutes. -/
structure HostZone where
  f : ZoneOffsetFn
  loOff : Int
  hiOff : Int

/-- ECMA-262 `LocalTZA(tlocal, false)` for a two-offset zone: use the DST
    offset exactly when the instant one DST-offset before the reading is in
    DST (this picks the earlier occurrence of a repeated reading and the
    pre-transition offset inside a skipped hour). -/
def offsetForLocal (hz : HostZone) (l : Int) : Int :=
  if hz.f (l - hz.hiOff * 60) = hz.hiOff then hz.hiOff else hz.loOff

/-- `calculateEndDate(startDate, durationMinutes = 60)` under host zone `hz`. -/
def calculateEndDate (hz : HostZone) (startDate : Int)
    (durationMinutes : Int := 60) : Int :=
  startDate + hz.f startDate * 60 + durationMinutes * 60
    - offsetForLocal hz
        (startDate + hz.f startDate * 60 + durationMinutes * 60) * 60

/-- Host process running in Europe/Helsinki. -/
def helsinkiHost : HostZone := ⟨helsinkiOffset, 120, 180⟩

/-- Host process running in UTC (fixed offset zero). -/
def utcHost : HostZone := ⟨fun _ => 0, 0, 0⟩

/-! ## ICS text encoding (`ical-lib.ts`) -/

/-- `escapeText`:
    `str.replace(/[\\,;]/g, m => "\\" + m).replace(/\n/g, "\\n")`. The two
    passes compose into one character scan: the first pass introduces no
    newline, and the second only rewrites newlines. -/
def escapeChars : List Char → List Char
  | [] => []
  | c :: cs =>
    if c = '\\' ∨ c = ',' ∨ c = ';' then '\\' :: c :: escapeChars cs
    else if c = '\n' then '\\' :: 'n' :: escapeChars cs
    else c :: escapeChars cs

def escapeText (s : String) : String := ⟨escapeChars s.data⟩

/-- Decimal digit character for a value in `[0, 9]`. -/
def digitChar10 (k : Int) : Char := Char.ofNat (48 + k.toNat)

/-- JS `String(n).padStart(w, '0')` (luxon's `num` formatter helper): pad the
    decimal rendering on the left with zeros to width `w`; never truncates,
    and a minus sign counts toward the width. -/
def padStartNum (n : Int) (w : Nat) : String :=
  let s : String := if n < 0 then "-" ++ Nat.repr n.natAbs else Nat.repr n.natAbs
  (⟨List.replicate (w - s.length) '0'⟩ : String) ++ s

/-- The `yyyy` field of luxon's `toFormat`: for years 0–9999 the four decimal
    digits (written digit-by-digit, which agrees with `padStartNum n 4` there,
    so theorems can compute with symbolic digit values); outside that range
    luxon pads without truncating. -/
def fmt4 (n : Int) : String :=
  if 0 ≤ n ∧ n ≤ 9999 then
    ⟨[digitChar10 (n / 1000), digitChar10 (n / 100 % 10),
      digitChar10 (n / 10 % 10), digitChar10 (n % 10)]⟩
  else padStartNum n 4

/-- A two-digit field (`MM`, `dd`, `HH`, `mm`, `ss`) of luxon's `toFormat`;
    the in-range branch agrees with `padStartNum n 2`. -/
def fmt2 (n : Int) : String :=
  if 0 ≤ n ∧ n ≤ 99 then ⟨[digitChar10 (n / 10), digitChar10 (n % 10)]⟩
  else padStartNum n 2

/-- `toCalDavUTC`: `DateTime.fromJSDate(date).toUTC()` then
    `toFormat("yyyyMMdd'T'HHmmss'Z'")` — the instant's UTC civil fields in
    wire form. -/
def toCalDavUTC (t : Int) : String :=
  fmt4 (civilFromSeconds t).year ++ fmt2 (civilFromSeconds t).month ++
    fmt2 (civilFromSeconds t).day ++ "T" ++ fmt2 (civilFromSeconds t).hour ++
    fmt2 (civilFromSeconds t).minute ++ fmt2 (civilFromSeconds t).second ++ "Z"

/-- The `ICalInput` record; `Option` models the optional fields. -/
structure ICalInput where
  title : String
  start : Int
  «end» : Int
  description : Option String := none
  location : Option String := none
  uid : Option String := none
  domain : Option String := none
deriving DecidableEq, Repr

/-- `lines.join('\r\n')`. -/
def joinCRLF : List String → String
  | [] => ""
  | [l] => l
  | l :: l2 :: ls => l ++ "\r\n" ++ joinCRLF (l2 :: ls)

/-- `generateICal`. Effects enter as parameters: `freshUid` stands for
    `crypto.randomUUID()` and `nowT` for `new Date()`. JS `uid || ...` treats
    an empty-string uid as missing, `domain = 'mcp-server'` is a destructuring
    default (applies only when the property is absent), and
    `if (description)` / `if (location)` skip both missing and empty
    fields. -/
def generateICal (freshUid : String) (nowT : Int) (input : ICalInput) :
    String :=
  let domain := match input.domain with | none => "mcp-server" | some s => s
  let finalUid :=
    match input.uid with
    | none => freshUid ++ "@" ++ domain
    | some u => if u = "" then freshUid ++ "@" ++ domain else u
  joinCRLF
    (["BEGIN:VCALENDAR", "VERSION:2.0",
      "PRODID:-//Standardized ICal Lib//EN", "CALSCALE:GREGORIAN",
      "BEGIN:VEVENT",
      "UID:" ++ finalUid, "DTSTAMP:" ++ toCalDavUTC nowT,
      "DTSTART:" ++ toCalDavUTC input.start,
      "DTEND:" ++ toCalDavUTC input.«end»,
      "SUMMARY:" ++ escapeText input.title] ++
     (match input.description with
      | none => []
      | some d => if d = "" then [] else ["DESCRIPTION:" ++ escapeText d]) ++
     (match input.location with
      | none => []
      | some l => if l = "" then [] else ["LOCATION:" ++ escapeText l]) ++
     ["END:VEVENT", "END:VCALENDAR"])

/-! ## ICS decoding (`icsToJson.ts`) -/

/-- `icsData.split(/\r\n|\n|\r/)`: regex alternatives are tried left to right
    at each position, so `\r\n` wins over a lone `\r`. -/
def splitNLAux : List Char → List Char → List (List Char)
  | [], acc => [acc.reverse]
  | '\r' :: '\n' :: rest, acc => acc.reverse :: splitNLAux rest []
  | '\r' :: rest, acc => acc.reverse :: splitNLAux rest []
  | '\n' :: rest, acc => acc.reverse :: splitNLAux rest []
  | c :: rest, acc => splitNLAux rest (c :: acc)

def icsLines (s : String) : List String :=
  (splitNLAux s.data []).map fun cs => ⟨cs⟩

/-- JS `String.prototype.trim` whitespace (ASCII fragment; the theorems below
    never exercise the non-ASCII whitespace JS additionally trims). -/
def jsWS (c : Char) : Bool :=
  c = ' ' ∨ c = '\t' ∨ c = '\n' ∨ c = '\r' ∨ c = '\x0b' ∨ c = '\x0c'

/-- JS `String.prototype.trim`. -/
def jsTrim (s : String) : String :=
  ⟨((s.data.dropWhile jsWS).reverse.dropWhile jsWS).reverse⟩

/-- `clean`: `decodeURI(string).trim()` with a try/catch falling back to
    `string.trim()`. `decodeURI` is the identity on `%`-free strings — the
    only strings the concrete theorems below feed it; on a string containing
    `%` the model approximates both the decoded and the thrown-and-caught
    outcome by the identity, and no theorem below depends on that case. -/
def clean (s : String) : String := jsTrim s

/-- The tracked keys (the values of `keyMap`). -/
inductive IcsField
  | startDate | endDate | description | summary | location
deriving DecidableEq, Repr

/-- A parsed event record (`ICSJson`): the five tracked properties, `none`
    when never assigned (JS `undefined`). -/
structure IcsRec where
  startDate : Option String := none
  endDate : Option String := none
  description : Option String := none
  summary : Option String := none
  location : Option String := none
deriving DecidableEq, Repr

def IcsRec.get (r : IcsRec) : IcsField → Option String
  | .startDate => r.startDate
  | .endDate => r.endDate
  | .description => r.description
  | .summary => r.summary
  | .location => r.location

def IcsRec.set (r : IcsRec) : IcsField → String → IcsRec
  | .startDate, v => { r with startDate := some v }
  | .endDate, v => { r with endDate := some v }
  | .description, v => { r with description := some v }
  | .summary, v => { r with summary := some v }
  | .location, v => { r with location := some v }

/-- `keyMap` lookup (`parsedKey in keyMap`). -/
def keyMap : String → Option IcsField := fun k =>
  if k = "DTSTART" then some .startDate
  else if k = "DTEND" then some .endDate
  else if k = "DESCRIPTION" then some .description
  else if k = "SUMMARY" then some .summary
  else if k = "LOCATION" then some .location
  else none

/-- JS `currentObj[lastKey] += s`: an unset property reads as `undefined`,
    which string `+` coerces to `"undefined"`. -/
def jsAppend (cur : Option String) (s : String) : String :=
  match cur with
  | none => "undefined" ++ s
  | some t => t ++ s

/-- Loop state of `icsToJson` (`array`, `currentObj`, `lastKey`, `isAlarm`);
    `lastKey = none` models the initial empty string (the source guards with
    `lastKey.length > 0`). -/
structure ParseSt where
  arr : List IcsRec
  cur : IcsRec
  lastKey : Option IcsField
  isAlarm : Bool
deriving DecidableEq, Repr

/-- `indexOf`: index of the first occurrence of a character, scanning left to
    right. -/
def findCharIdx (target : Char) : List Char → Nat → Option Nat
  | [], _ => none
  | c :: rest, i => if c = target then some i else findCharIdx target rest (i + 1)

/-- `line.indexOf(':')`. -/
def colonIdx (line : String) : Option Nat :=
  findCharIdx ':' line.data 0

/-- `key`: the line up to the first colon (the whole line if none). -/
def keyOf (line : String) : String :=
  match colonIdx line with
  | none => line
  | some i => ⟨line.data.take i⟩

/-- `value`: the line after the first colon (empty if none). -/
def valueOf (line : String) : String :=
  match colonIdx line with
  | none => ""
  | some i => ⟨line.data.drop (i + 1)⟩

/-- `parsedKey`: `key` truncated at its first `;`. -/
def parsedKeyOf (line : String) : String :=
  match findCharIdx ';' (keyOf line).data 0 with
  | none => keyOf line
  | some j => ⟨(keyOf line).data.take j⟩

/-- `startsWith(' ')`. -/
def startsBlank (line : String) : Bool :=
  match line.data with
  | ' ' :: _ => true
  | _ => false

/-- The `if (parsedKey) {...}` block: on a colonless line whose key starts
    with a space and with a nonempty `lastKey`, append the cleaned folded
    content to that property; on a keyed line with a colon, record `lastKey`. -/
def applyKeyTracking (st : ParseSt) (line : String) : ParseSt :=
  if parsedKeyOf line = "" then st
  else
    match colonIdx line with
    | none =>
      if startsBlank (parsedKeyOf line) then
        match st.lastKey with
        | some fld =>
          { st with cur :=
              st.cur.set fld (jsAppend (st.cur.get fld) (clean ⟨line.data.drop 1⟩)) }
        | none => st
      else st
    | some _ =>
      match keyMap (parsedKeyOf line) with
      | some fld => { st with lastKey := some fld }
      | none => st

/-- The `switch (parsedKey)` block. -/
def applySwitch (st : ParseSt) (pk value : String) : ParseSt :=
  if pk = "BEGIN" then
    if value = "VEVENT" then { st with cur := {} }
    else if value = "VALARM" then { st with isAlarm := true }
    else st
  else if pk = "END" then
    if value = "VEVENT" then
      { st with isAlarm := false, arr := st.arr ++ [st.cur] }
    else { st with isAlarm := false }
  else if pk = "DTSTART" then { st with cur := st.cur.set .startDate value }
  else if pk = "DTEND" then { st with cur := st.cur.set .endDate value }
  else if pk = "DESCRIPTION" then
    if st.isAlarm then st
    else { st with cur := st.cur.set .description (clean value) }
  else if pk = "SUMMARY" then { st with cur := st.cur.set .summary (clean value) }
  else if pk = "LOCATION" then { st with cur := st.cur.set .location (clean value) }
  else st

/-- One iteration of the `for` loop of `icsToJson`. -/
def stepLine (st : ParseSt) (line : String) : ParseSt :=
  applySwitch (applyKeyTracking st line) (parsedKeyOf line) (valueOf line)

/-- Initial loop state. -/
def initSt : ParseSt := ⟨[], {}, none, false⟩

/-- `icsToJson`. -/
def icsToJson (icsData : String) : List IcsRec :=
  ((icsLines icsData).foldl stepLine initSt).arr

/-! ## ICS date decoding (`parseIcsDate` of `calendar-events.ts`) -/

/-- Line terminators, which `.` in a JS regex (no dotAll flag) does not
    match. -/
def isLineTerm (c : Char) : Bool :=
  c = '\n' ∨ c = '\r' ∨ c = '\u2028' ∨ c = '\u2029'

/-- `haystack.includes(needle)` on character lists. -/
def containsSub : List Char → List Char → Bool
  | needle, [] => needle.isEmpty
  | needle, c :: rest => needle.isPrefixOf (c :: rest) || containsSub needle rest

/-- One attempt of `/TZID=([^:]+):(.+)/` anchored at the head of `cs`:
    `TZID=`, a nonempty run up to the first colon, the colon, then a nonempty
    run of non-line-terminator characters ((.+) is the longest such run — the
    regex is unanchored at the right). -/
def tzidAttempt (cs : List Char) : Option (List Char × List Char) :=
  if ("TZID=".data).isPrefixOf cs then
    match (cs.drop 5).findIdx? (fun c => c = ':') with
    | none => none
    | some j =>
      if j = 0 then none
      else
        if ((cs.drop 5).drop (j + 1)).takeWhile (fun c => !isLineTerm c) = []
        then none
        else some ((cs.drop 5).take j,
          ((cs.drop 5).drop (j + 1)).takeWhile (fun c => !isLineTerm c))
  else none

/-- Unanchored regex search: try every start position, leftmost match wins. -/
def tzidScan : List Char → Option (List Char × List Char)
  | [] => none
  | c :: rest =>
    match tzidAttempt (c :: rest) with
    | some r => some r
    | none => tzidScan rest

/-- `/^(.+?)([+-])(\d{2})(\d{2})$/`: the string ends in a sign and four
    digits, and the nonempty prefix before the sign contains no line
    terminator (`.` matches none). Returns the prefix and
    `(parseInt(hours) * 60 + parseInt(minutes)) * (sign === '-' ? -1 : 1)`. -/
def offsetSplit (cs : List Char) : Option (List Char × Int) :=
  match cs.reverse with
  | m2 :: m1 :: h2 :: h1 :: sgn :: preRev =>
    if (sgn = '+' ∨ sgn = '-') ∧ isDigitChar h1 ∧ isDigitChar h2 ∧
        isDigitChar m1 ∧ isDigitChar m2 ∧ preRev ≠ [] ∧
        preRev.all (fun c => !isLineTerm c) then
      some (preRev.reverse,
        (if sgn = '-' then (-1 : Int) else 1) *
          ((10 * digVal h1 + digVal h2) * 60 + (10 * digVal m1 + digVal m2)))
    else none
  | _ => none

/-- Last character of a character list (for `endsWith('Z')`). -/
def lastChar : List Char → Option Char
  | [] => none
  | [c] => some c
  | _ :: c :: cs => lastChar (c :: cs)

def val2 (a b : Char) : Int := 10 * digVal a + digVal b

/-- The anchored main pattern
    `/^(\d{4})(\d{2})(\d{2})(?:T(\d{2})(\d{2})(\d{2})?)?Z?$/` with captures
    converted by `parseInt` and absent time parts defaulted to 0 as in the
    source (`hour ? parseInt(hour) : 0`). -/
def mainMatch (cs : List Char) : Option CivilDateTime :=
  match cs with
  | y1 :: y2 :: y3 :: y4 :: o1 :: o2 :: d1 :: d2 :: rest =>
    if isDigitChar y1 ∧ isDigitChar y2 ∧ isDigitChar y3 ∧ isDigitChar y4 ∧
        isDigitChar o1 ∧ isDigitChar o2 ∧ isDigitChar d1 ∧ isDigitChar d2 then
      match rest with
      | [] =>
        some ⟨1000 * digVal y1 + 100 * digVal y2 + 10 * digVal y3 + digVal y4,
          val2 o1 o2, val2 d1 d2, 0, 0, 0⟩
      | ['Z'] =>
        some ⟨1000 * digVal y1 + 100 * digVal y2 + 10 * digVal y3 + digVal y4,
          val2 o1 o2, val2 d1 d2, 0, 0, 0⟩
      | 'T' :: h1 :: h2 :: mi1 :: mi2 :: rest2 =>
        if isDigitChar h1 ∧ isDigitChar h2 ∧ isDigitChar mi1 ∧
            isDigitChar mi2 then
          match rest2 with
          | [] =>
            some ⟨1000 * digVal y1 + 100 * digVal y2 + 10 * digVal y3 +
              digVal y4, val2 o1 o2, val2 d1 d2, val2 h1 h2, val2 mi1 mi2, 0⟩
          | ['Z'] =>
            some ⟨1000 * digVal y1 + 100 * digVal y2 + 10 * digVal y3 +
              digVal y4, val2 o1 o2, val2 d1 d2, val2 h1 h2, val2 mi1 mi2, 0⟩
          | [s1, s2] =>
            if isDigitChar s1 ∧ isDigitChar s2 then
              some ⟨1000 * digVal y1 + 100 * digVal y2 + 10 * digVal y3 +
                digVal y4, val2 o1 o2, val2 d1 d2, val2 h1 h2, val2 mi1 mi2,
                val2 s1 s2⟩
            else none
          | [s1, s2, 'Z'] =>
            if isDigitChar s1 ∧ isDigitChar s2 then
              some ⟨1000 * digVal y1 + 100 * digVal y2 + 10 * digVal y3 +
                digVal y4, val2 o1 o2, val2 d1 d2, val2 h1 h2, val2 mi1 mi2,
                val2 s1 s2⟩
            else none
          | _ => none
        else none
      | _ => none
    else none
  | _ => none

/-- The TZID and trailing-offset stripping steps of `parseIcsDate`: the
    remaining date token, the captured TZID name (if any — kept even when the
    zone later proves invalid, matching the source's fallthrough), and the
    parsed trailing offset in minutes (if any). -/
def stripZoneMarkers (icalDate : String) : String × Option String × Option Int :=
  let t : String × Option String :=
    if containsSub "TZID=".data icalDate.data then
      match tzidScan icalDate.data with
      | some (tz, date) => (⟨date⟩, some ⟨tz⟩)
      | none => (icalDate, none)
    else (icalDate, none)
  match offsetSplit t.1.data with
  | some (pre, off) => (⟨pre⟩, t.2, some off)
  | none => (t.1, t.2, none)

/-- The fixed-offset zone the source builds for a numeric offset: the spec
    string `` `UTC${om >= 0 ? '+' : ''}${Math.floor(om / 60)}:${String(Math.abs(om % 60)).padStart(2, '0')}` ``
    parsed by luxon as `offHour * 60 + (offHour < 0 ? -offMin : offMin)`
    minutes, valid iff the hour part fits `[+-]\d{1,2}` (JS `%` truncates
    toward zero, `Math.floor` rounds down). -/
def fixedZoneOffset (om : Int) : Option Int :=
  if -99 ≤ om / 60 ∧ om / 60 ≤ 99 then
    some ((om / 60) * 60 +
      (if om / 60 < 0 then -(((Int.tmod om 60).natAbs : Int))
       else ((Int.tmod om 60).natAbs : Int)))
  else none

/-- `parseIcsDate` (with the timezone database as parameter): strip zone
    markers, match the main pattern (no match logs a warning and returns
    null), then `DateTime.fromObject` in the selected zone — `utc` for a `Z`
    suffix, the TZID zone when recognized, the fixed-offset zone for a numeric
    offset, else `DEFAULT_TIMEZONE` — and `dt.isValid ? dt.toJSDate() :
    null`. -/
def parseIcsDate (tzdb : String → Option ZoneOffsetFn) (icalDate : String) :
    Option Int :=
  if icalDate = "" then none
  else
    match mainMatch (stripZoneMarkers icalDate).1.data with
    | none => none
    | some parts =>
      if luxonValidFields parts.year parts.month parts.day parts.hour
          parts.minute parts.second then
        if lastChar (stripZoneMarkers icalDate).1.data = some 'Z' then
          some (secondsFromCivil parts.year parts.month parts.day parts.hour
            parts.minute parts.second)
        else
          match (stripZoneMarkers icalDate).2.1 >>= tzdb with
          | some f =>
            some (fixOffset f (secondsFromCivil parts.year parts.month
              parts.day parts.hour parts.minute parts.second)).1
          | none =>
            match (stripZoneMarkers icalDate).2.2 with
            | some om =>
              match fixedZoneOffset om with
              | some off =>
                some (secondsFromCivil parts.year parts.month parts.day
                  parts.hour parts.minute parts.second - off * 60)
              | none => none
            | none =>
              match tzdb DEFAULT_TIMEZONE with
              | some f =>
                some (fixOffset f (secondsFromCivil parts.year parts.month
                  parts.day parts.hour parts.minute parts.second)).1
              | none => none
      else none

/-! ## ICS to calendar events (`mapIcsToCalendarEvents`) -/

/-- The `CalendarEvent` record. -/
structure CalendarEvent where
  title : String
  start : Option Int
  «end» : Option Int
  location : Option String
  description : Option String
deriving DecidableEq, Repr

/-- `parseIcsDate(evt.startDate)` where the property may be `undefined`
    (caught by the `if (!icalDate)` guard like the empty string). -/
def parseIcsDateOpt (tzdb : String → Option ZoneOffsetFn)
    (o : Option String) : Option Int :=
  match o with
  | none => none
  | some d => parseIcsDate tzdb d

/-- JS `x || null` on an optional string: `undefined` and `""` become null. -/
def jsOrNull (o : Option String) : Option String :=
  match o with
  | none => none
  | some s => if s = "" then none else some s

/-- One element of the `parsed.map((evt) => ...)` body. -/
def mapOneEvent (tzdb : String → Option ZoneOffsetFn) (evt : IcsRec) :
    CalendarEvent :=
  { title := match evt.summary with
      | none => "Untitled"
      | some s => if s = "" then "Untitled" else s
  , start := parseIcsDateOpt tzdb evt.startDate
  , «end» := parseIcsDateOpt tzdb evt.endDate
  , location := jsOrNull evt.location
  , description := jsOrNull evt.description }

/-- `mapIcsToCalendarEvents`. -/
def mapIcsToCalendarEvents (tzdb : String → Option ZoneOffsetFn)
    (ics : String) : List CalendarEvent :=
  (icsToJson ics).map (mapOneEvent tzdb)

/-! ## Line-split, escaping and parser-step lemmas -/

theorem splitNLAux_cons_other (c : Char) (h1 : c ≠ '\r') (h2 : c ≠ '\n')
    (rest acc : List Char) :
    splitNLAux (c :: rest) acc = splitNLAux rest (c :: acc) := by
  rw [splitNLAux.eq_def]
  split
  all_goals simp_all

theorem splitNLAux_crlf (rest acc : List Char) :
    splitNLAux ('\r' :: '\n' :: rest) acc = acc.reverse :: splitNLAux rest [] := rfl

theorem escapeChars_no_newline (l : List Char) : '\n' ∉ escapeChars l := by
  induction l with
  | nil => simp [escapeChars]
  | cons c cs ih =>
    simp only [escapeChars]
    split_ifs with hc1 hc2
    · simp only [List.mem_cons]
      rintro (h | h | h)
      · exact absurd h (by decide)
      · rcases hc1 with h' | h' | h' <;> subst h' <;> exact absurd h (by decide)
      · exact ih h
    · simp only [List.mem_cons]
      rintro (h | h | h)
      · exact absurd h (by decide)
      · exact absurd h (by decide)
      · exact ih h
    · simp only [List.mem_cons]
      rintro (h | h)
      · exact hc2 h.symm
      · exact ih h

theorem escapeChars_subset (l : List Char) (c : Char) (h : c ∈ escapeChars l) :
    c ∈ l ∨ c = '\\' ∨ c = 'n' := by
  induction l with
  | nil => simp [escapeChars] at h
  | cons a cs ih =>
    simp only [escapeChars] at h
    split_ifs at h with h1 h2
    · simp only [List.mem_cons] at h
      rcases h with h | h | h
      · exact Or.inr (Or.inl h)
      · exact Or.inl (by simp [h])
      · rcases ih h with h' | h' <;> [exact Or.inl (by simp [h']); exact Or.inr h']
    · simp only [List.mem_cons] at h
      rcases h with h | h | h
      · exact Or.inr (Or.inl h)
      · exact Or.inr (Or.inr h)
      · rcases ih h with h' | h' <;> [exact Or.inl (by simp [h']); exact Or.inr h']
    · simp only [List.mem_cons] at h
      rcases h with h | h
      · exact Or.inl (by simp [h])
      · rcases ih h with h' | h' <;> [exact Or.inl (by simp [h']); exact Or.inr h']

theorem splitNLAux_free (l : List Char) (h : ∀ c ∈ l, c ≠ '\r' ∧ c ≠ '\n') :
    ∀ rest acc, splitNLAux (l ++ rest) acc = splitNLAux rest (l.reverse ++ acc) := by
  induction l with
  | nil => intro rest acc; simp
  | cons c cs ih =>
    intro rest acc
    have hc := h c (by simp)
    rw [List.cons_append, splitNLAux_cons_other c hc.1 hc.2,
      ih (fun x hx => h x (by simp [hx])) rest (c :: acc)]
    simp

theorem splitNL_join (ls : List String)
    (h : ∀ l ∈ ls, ∀ c ∈ l.data, c ≠ '\r' ∧ c ≠ '\n') (hne : ls ≠ []) :
    splitNLAux (joinCRLF ls).data [] = ls.map String.data := by
  induction ls with
  | nil => exact absurd rfl hne
  | cons l ls ih =>
    rcases ls with _ | ⟨l2, ls2⟩
    · show splitNLAux (joinCRLF [l]).data [] = [l.data]
      have hj : joinCRLF [l] = l := rfl
      rw [hj]
      calc splitNLAux l.data [] = splitNLAux (l.data ++ []) [] := by simp
        _ = splitNLAux [] (l.data.reverse ++ []) :=
          splitNLAux_free l.data (h l (by simp)) [] []
        _ = [l.data] := by simp [splitNLAux]
    · have hj : joinCRLF (l :: l2 :: ls2) = l ++ "\r\n" ++ joinCRLF (l2 :: ls2) := rfl
      rw [hj]
      have hdata : (l ++ "\r\n" ++ joinCRLF (l2 :: ls2)).data
          = l.data ++ ('\r' :: '\n' :: (joinCRLF (l2 :: ls2)).data) := by
        simp [String.data_append]
      rw [hdata, splitNLAux_free l.data (h l (by simp)) _ [],
        splitNLAux_crlf, ih (fun x hx => h x (by simp [hx])) (by simp)]
      simp

theorem icsLines_join (ls : List String)
    (h : ∀ l ∈ ls, ∀ c ∈ l.data, c ≠ '\r' ∧ c ≠ '\n') (hne : ls ≠ []) :
    icsLines (joinCRLF ls) = ls := by
  unfold icsLines
  rw [splitNL_join ls h hne, List.map_map]
  have hid : ((fun cs => (⟨cs⟩ : String)) ∘ String.data) = id := funext fun s => rfl
  rw [hid, List.map_id]

theorem stepLine_endEvent (st : ParseSt) :
    stepLine st "END:VEVENT" =
      { st with isAlarm := false, arr := st.arr ++ [st.cur] } := rfl

theorem stepLine_endCal (st : ParseSt) :
    stepLine st "END:VCALENDAR" = { st with isAlarm := false } := rfl

theorem findCharIdx_cons_ne (t c : Char) (h : ¬ c = t) (l : List Char) (i : Nat) :
    findCharIdx t (c :: l) i = findCharIdx t l (i + 1) := by
  simp [findCharIdx, h]

theorem findCharIdx_cons_eq (t : Char) (l : List Char) (i : Nat) :
    findCharIdx t (t :: l) i = some i := by
  simp [findCharIdx]

theorem colonIdx_description (e : String) :
    colonIdx ("DESCRIPTION:" ++ e) = some 11 := by
  have hd : ("DESCRIPTION:" ++ e).data = "DESCRIPTION:".data ++ e.data :=
    String.data_append _ _
  rw [colonIdx, hd]
  show findCharIdx ':'
    ('D' :: 'E' :: 'S' :: 'C' :: 'R' :: 'I' :: 'P' :: 'T' :: 'I' :: 'O' :: 'N' :: ':' :: e.data) 0 = some 11
  rw [findCharIdx_cons_ne _ _ (by decide), findCharIdx_cons_ne _ _ (by decide),
    findCharIdx_cons_ne _ _ (by decide), findCharIdx_cons_ne _ _ (by decide),
    findCharIdx_cons_ne _ _ (by decide), findCharIdx_cons_ne _ _ (by decide),
    findCharIdx_cons_ne _ _ (by decide), findCharIdx_cons_ne _ _ (by decide),
    findCharIdx_cons_ne _ _ (by decide), findCharIdx_cons_ne _ _ (by decide),
    findCharIdx_cons_ne _ _ (by decide), findCharIdx_cons_eq]

theorem stepLine_description (st : ParseSt) (e : String) (hA : st.isAlarm = false) :
    stepLine st ("DESCRIPTION:" ++ e) =
      { st with lastKey := some .description,
                cur := st.cur.set .description (clean e) } := by
  have hd : ("DESCRIPTION:" ++ e).data = "DESCRIPTION:".data ++ e.data :=
    String.data_append _ _
  have hci := colonIdx_description e
  have hkey : keyOf ("DESCRIPTION:" ++ e) = "DESCRIPTION" := by
    rw [keyOf, hci, hd]
    show (⟨List.take 11 ("DESCRIPTION:".data ++ e.data)⟩ : String) = "DESCRIPTION"
    rw [List.take_append_of_le_length (by decide)]
    decide
  have hpk : parsedKeyOf ("DESCRIPTION:" ++ e) = "DESCRIPTION" := by
    rw [parsedKeyOf, hkey]
    decide
  have hval : valueOf ("DESCRIPTION:" ++ e) = e := by
    rw [valueOf, hci, hd]
    show (⟨List.drop (11 + 1) ("DESCRIPTION:".data ++ e.data)⟩ : String) = e
    rw [show (11 + 1 : Nat) = ("DESCRIPTION:".data).length from rfl, List.drop_left]
  have hakt : applyKeyTracking st ("DESCRIPTION:" ++ e) =
      { st with lastKey := some .description } := by
    rw [applyKeyTracking, hpk, hci]
    rfl
  rw [stepLine, hpk, hval, hakt]
  rw [applySwitch]
  simp only [hA]
  rfl

/-! ## Folded lines and the alarm-description filter

`isFoldLine` captures the trigger of the parser's continuation-line handling:
a line without a colon whose (semicolon-truncated) key begins with a space.
`alarmDescFilter` removes DESCRIPTION lines that occur while inside a VALARM
block, tracking BEGIN:VALARM / END transitions the way the parser does; it is
a specification-side definition used to state what "ignoring alarm
descriptions" means. -/

def isFoldLine (l : String) : Bool :=
  decide (colonIdx l = none) && startsBlank (parsedKeyOf l)

def alarmDescFilter : Bool → List String → List String
  | _, [] => []
  | inAlarm, l :: ls =>
    if parsedKeyOf l = "BEGIN" ∧ valueOf l = "VALARM" then
      l :: alarmDescFilter true ls
    else if parsedKeyOf l = "END" then l :: alarmDescFilter false ls
    else if inAlarm ∧ parsedKeyOf l = "DESCRIPTION" then alarmDescFilter inAlarm ls
    else l :: alarmDescFilter inAlarm ls

/-! ## Parser-state lemmas for the alarm filter -/

theorem aKT_arr (st : ParseSt) (l : String) :
    (applyKeyTracking st l).arr = st.arr := by
  by_cases hpk : parsedKeyOf l = ""
  · simp [applyKeyTracking, hpk]
  · rcases hc : colonIdx l with _ | i
    · by_cases hsb : startsBlank (parsedKeyOf l)
      · rcases hlk : st.lastKey with _ | fld <;>
          simp [applyKeyTracking, hpk, hc, hsb, hlk]
      · simp [applyKeyTracking, hpk, hc, hsb]
    · rcases hk : keyMap (parsedKeyOf l) with _ | fld <;>
        simp [applyKeyTracking, hpk, hc, hk]

theorem aKT_isAlarm (st : ParseSt) (l : String) :
    (applyKeyTracking st l).isAlarm = st.isAlarm := by
  by_cases hpk : parsedKeyOf l = ""
  · simp [applyKeyTracking, hpk]
  · rcases hc : colonIdx l with _ | i
    · by_cases hsb : startsBlank (parsedKeyOf l)
      · rcases hlk : st.lastKey with _ | fld <;>
          simp [applyKeyTracking, hpk, hc, hsb, hlk]
      · simp [applyKeyTracking, hpk, hc, hsb]
    · rcases hk : keyMap (parsedKeyOf l) with _ | fld <;>
        simp [applyKeyTracking, hpk, hc, hk]

theorem aKT_cur (st : ParseSt) (l : String) (hf : isFoldLine l = false) :
    (applyKeyTracking st l).cur = st.cur := by
  by_cases hpk : parsedKeyOf l = ""
  · simp [applyKeyTracking, hpk]
  · rcases hc : colonIdx l with _ | i
    · by_cases hsb : startsBlank (parsedKeyOf l)
      · exact absurd hf (by simp [isFoldLine, hc, hsb])
      · simp [applyKeyTracking, hpk, hc, hsb]
    · rcases hk : keyMap (parsedKeyOf l) with _ | fld <;>
        simp [applyKeyTracking, hpk, hc, hk]

theorem stepLine_isAlarm (st : ParseSt) (l : String) :
    (stepLine st l).isAlarm =
      (if parsedKeyOf l = "BEGIN" ∧ valueOf l = "VALARM" then true
       else if parsedKeyOf l = "END" then false
       else st.isAlarm) := by
  have hA := aKT_isAlarm st l
  simp only [stepLine]
  unfold applySwitch
  split_ifs <;> simp_all

theorem stepLine_congr (l : String) (st1 st2 : ParseSt)
    (hf : isFoldLine l = false)
    (h1 : st1.arr = st2.arr) (h2 : st1.cur = st2.cur)
    (h3 : st1.isAlarm = st2.isAlarm) :
    (stepLine st1 l).arr = (stepLine st2 l).arr ∧
    (stepLine st1 l).cur = (stepLine st2 l).cur ∧
    (stepLine st1 l).isAlarm = (stepLine st2 l).isAlarm := by
  have a1 := aKT_arr st1 l
  have a2 := aKT_arr st2 l
  have c1 := aKT_cur st1 l hf
  have c2 := aKT_cur st2 l hf
  have i1 := aKT_isAlarm st1 l
  have i2 := aKT_isAlarm st2 l
  simp only [stepLine]
  unfold applySwitch
  split_ifs <;> simp_all

theorem stepLine_alarmDesc (st : ParseSt) (l : String)
    (hf : isFoldLine l = false)
    (hpk : parsedKeyOf l = "DESCRIPTION") (hA : st.isAlarm = true) :
    (stepLine st l).arr = st.arr ∧ (stepLine st l).cur = st.cur ∧
    (stepLine st l).isAlarm = st.isAlarm := by
  have a1 := aKT_arr st l
  have c1 := aKT_cur st l hf
  have i1 := aKT_isAlarm st l
  simp only [stepLine, hpk]
  unfold applySwitch
  simp [i1, hA, a1, c1]

theorem foldl_filter_arr (ls : List String) :
    ∀ (st1 st2 : ParseSt),
      (∀ l ∈ ls, isFoldLine l = false) →
      st1.arr = st2.arr → st1.cur = st2.cur → st1.isAlarm = st2.isAlarm →
      (ls.foldl stepLine st1).arr =
        ((alarmDescFilter st1.isAlarm ls).foldl stepLine st2).arr := by
  induction ls with
  | nil =>
    intro st1 st2 _ h1 _ _
    simpa [alarmDescFilter] using h1
  | cons l ls ih =>
    intro st1 st2 hfold h1 h2 h3
    have hfl : isFoldLine l = false := hfold l (by simp)
    have hft : ∀ x ∈ ls, isFoldLine x = false := fun x hx => hfold x (by simp [hx])
    have hcon := stepLine_congr l st1 st2 hfl h1 h2 h3
    simp only [List.foldl_cons, alarmDescFilter]
    by_cases hb : parsedKeyOf l = "BEGIN" ∧ valueOf l = "VALARM"
    · rw [if_pos hb]
      simp only [List.foldl_cons]
      have hA1 : (stepLine st1 l).isAlarm = true := by
        rw [stepLine_isAlarm, if_pos hb]
      rw [show (true : Bool) = (stepLine st1 l).isAlarm from hA1.symm]
      exact ih (stepLine st1 l) (stepLine st2 l) hft hcon.1 hcon.2.1 hcon.2.2
    · rw [if_neg hb]
      by_cases he : parsedKeyOf l = "END"
      · rw [if_pos he]
        simp only [List.foldl_cons]
        have hA1 : (stepLine st1 l).isAlarm = false := by
          rw [stepLine_isAlarm, if_neg hb, if_pos he]
        rw [show (false : Bool) = (stepLine st1 l).isAlarm from hA1.symm]
        exact ih (stepLine st1 l) (stepLine st2 l) hft hcon.1 hcon.2.1 hcon.2.2
      · rw [if_neg he]
        by_cases hd : st1.isAlarm = true ∧ parsedKeyOf l = "DESCRIPTION"
        · rw [if_pos hd]
          have hstep := stepLine_alarmDesc st1 l hfl hd.2 hd.1
          have := ih (stepLine st1 l) st2 hft (hstep.1.trans h1)
            (hstep.2.1.trans h2) (hstep.2.2.trans h3)
          rwa [hstep.2.2] at this
        · rw [if_neg hd]
          simp only [List.foldl_cons]
          have hA1 : (stepLine st1 l).isAlarm = st1.isAlarm := by
            rw [stepLine_isAlarm, if_neg hb, if_neg he]
          rw [show st1.isAlarm = (stepLine st1 l).isAlarm from hA1.symm]
          exact ih (stepLine st1 l) (stepLine st2 l) hft hcon.1 hcon.2.1 hcon.2.2

/-! ## Digit-string lemmas for the wire-form round trip -/

theorem digitChar10_isDigit (v : Int) (h0 : 0 ≤ v) (h9 : v ≤ 9) :
    isDigitChar (digitChar10 v) = true := by
  interval_cases v <;> decide

theorem digVal_digitChar10 (v : Int) (h0 : 0 ≤ v) (h9 : v ≤ 9) :
    digVal (digitChar10 v) = v := by
  interval_cases v <;> decide

theorem digit_char_props (c : Char) (h : isDigitChar c = true) :
    c ≠ 'T' ∧ c ≠ 'Z' ∧ c ≠ '+' ∧ c ≠ '-' ∧ c ≠ 'I' := by
  refine ⟨?_, ?_, ?_, ?_, ?_⟩ <;>
    exact fun he => absurd (he ▸ h) (by decide)

theorem containsSub_tzid_false (hay : List Char) (h : 'I' ∉ hay) :
    containsSub "TZID=".data hay = false := by
  induction hay with
  | nil => decide
  | cons c rest ih =>
    simp only [containsSub, Bool.or_eq_false_iff]
    constructor
    · cases hb : ("TZID=".data).isPrefixOf (c :: rest)
      · rfl
      · exact absurd
          ((List.isPrefixOf_iff_prefix.mp hb).sublist.subset (by decide))
          h
    · exact ih fun hm => h (List.mem_cons_of_mem c hm)

theorem offsetSplit_no_sign (cs : List Char)
    (h : ∀ c ∈ cs, c ≠ '+' ∧ c ≠ '-') : offsetSplit cs = none := by
  rcases hrev : cs.reverse with _ | ⟨m2, _ | ⟨m1, _ | ⟨h2c, _ | ⟨h1c, _ | ⟨sgn, preRev⟩⟩⟩⟩⟩ <;>
    unfold offsetSplit <;> rw [hrev]
  have hsm : sgn ∈ cs := List.mem_reverse.mp (by rw [hrev]; simp)
  have hcond : ¬((sgn = '+' ∨ sgn = '-') ∧ isDigitChar h1c = true ∧
      isDigitChar h2c = true ∧ isDigitChar m1 = true ∧ isDigitChar m2 = true ∧
      preRev ≠ [] ∧ (preRev.all fun c => !isLineTerm c) = true) := by
    rintro ⟨hs, -⟩
    rcases hs with hs | hs
    · exact (h sgn hsm).1 hs
    · exact (h sgn hsm).2 hs
  exact if_neg hcond

theorem mainMatch_utc16 (a1 a2 a3 a4 b1 b2 c1 c2 e1 e2 f1 f2 g1 g2 : Char)
    (ha1 : isDigitChar a1 = true) (ha2 : isDigitChar a2 = true)
    (ha3 : isDigitChar a3 = true) (ha4 : isDigitChar a4 = true)
    (hb1 : isDigitChar b1 = true) (hb2 : isDigitChar b2 = true)
    (hc1 : isDigitChar c1 = true) (hc2 : isDigitChar c2 = true)
    (he1 : isDigitChar e1 = true) (he2 : isDigitChar e2 = true)
    (hf1 : isDigitChar f1 = true) (hf2 : isDigitChar f2 = true)
    (hg1 : isDigitChar g1 = true) (hg2 : isDigitChar g2 = true) :
    mainMatch [a1, a2, a3, a4, b1, b2, c1, c2, 'T', e1, e2, f1, f2, g1, g2, 'Z'] =
      some ⟨1000 * digVal a1 + 100 * digVal a2 + 10 * digVal a3 + digVal a4,
        val2 b1 b2, val2 c1 c2, val2 e1 e2, val2 f1 f2, val2 g1 g2⟩ := by
  simp only [mainMatch]
  rw [if_pos ⟨ha1, ha2, ha3, ha4, hb1, hb2, hc1, hc2⟩,
    if_pos ⟨he1, he2, hf1, hf2⟩, if_pos ⟨hg1, hg2⟩]

theorem lastChar_app (l : List Char) (c : Char) :
    lastChar (l ++ [c]) = some c := by
  induction l with
  | nil => rfl
  | cons a rest ih =>
    rcases rest with _ | ⟨b, rest2⟩
    · rfl
    · simpa [lastChar] using ih

theorem parseIcsDate_utc (tzdb : String → Option ZoneOffsetFn) (str : String)
    (y mo d h mi s : Int) (hne : str ≠ "")
    (hstrip : stripZoneMarkers str = (str, none, none))
    (hmain : mainMatch str.data = some ⟨y, mo, d, h, mi, s⟩)
    (hvalid : luxonValidFields y mo d h mi s = true)
    (hlast : lastChar str.data = some 'Z') :
    parseIcsDate tzdb str = some (secondsFromCivil y mo d h mi s) := by
  rw [parseIcsDate, if_neg hne, hstrip]
  simp [hmain, hvalid, hlast]

/-! ## Claim theorems: resolver and duration -/

/-- C1: for every reference wall-clock and well-formed input the resolver
    returns `wallClockToUTC` of the wall-clock obtained by adding
    `weekOffset * 7 + (targetIso − referenceIso)` days to the reference date,
    setting the requested time of day and keeping the reference timezone
    (`resolvedWallClock`); and concretely, `{weekOffset := 0,
    weekday := monday, time := "08:00"}` resolved from Thursday 2025-01-09
    10:00 Europe/Helsinki yields Monday 2025-01-06 08:00 Helsinki wall-clock
    time — earlier in the same Monday-start ISO week, not the upcoming
    Monday. -/
theorem claim1_same_week_resolution :
    (∀ (tzdb : String → Option ZoneOffsetFn) (now : WallClockTime)
        (input : RelativeDateInput) (h mi : Int),
        parseHHmm input.time = some (h, mi) →
        calculateAbsoluteDateFromWallClock tzdb now input =
          wallClockToUTC tzdb
            (resolvedWallClock now input.weekday input.weekOffset h mi)) ∧
    resolvedWallClock ⟨2025, 1, 9, 10, 0, 0, "Europe/Helsinki"⟩ .monday 0 8 0 =
      ⟨2025, 1, 6, 8, 0, 0, "Europe/Helsinki"⟩ ∧
    calculateAbsoluteDateFromWallClock stdTzdb
        ⟨2025, 1, 9, 10, 0, 0, "Europe/Helsinki"⟩
        ⟨0, .monday, "08:00"⟩ = .ok (secondsFromCivil 2025 1 6 6 0 0) ∧
    civilFromSeconds (instantToWallSeconds helsinkiOffset
        (secondsFromCivil 2025 1 6 6 0 0)) = ⟨2025, 1, 6, 8, 0, 0⟩ := by
  refine ⟨fun tzdb now input h mi hp => calc_eq_resolved tzdb now input h mi hp,
    by decide, ?_, by decide⟩
  rfl

/-- Witness for C1 at the concrete scenario. -/
theorem claim1_witness :
    parseHHmm "08:00" = some (8, 0) ∧
    calculateAbsoluteDateFromWallClock stdTzdb
        ⟨2025, 1, 9, 10, 0, 0, "Europe/Helsinki"⟩ ⟨0, .monday, "08:00"⟩ =
      wallClockToUTC stdTzdb
        (resolvedWallClock ⟨2025, 1, 9, 10, 0, 0, "Europe/Helsinki"⟩
          .monday 0 8 0) :=
  ⟨by decide,
    claim1_same_week_resolution.1 stdTzdb
      ⟨2025, 1, 9, 10, 0, 0, "Europe/Helsinki"⟩ ⟨0, .monday, "08:00"⟩ 8 0
      (by decide)⟩

/-- C3: under a resolvable timezone, range-valid reference fields and a
    well-formed time, the self-check weekday of the resolver's target always
    equals `WEEKDAY_TO_ISO input.weekday`, so the `DateCalculationInconsistency`
    branch is unreachable and the function returns `.ok`. (The weekday is in
    the canonical set by the type `Weekday`.) -/
theorem claim3_selfcheck_never_fires :
    ∀ (tzdb : String → Option ZoneOffsetFn) (f : ZoneOffsetFn)
      (now : WallClockTime) (input : RelativeDateInput) (h mi : Int),
      tzdb now.timezone = some f →
      now.fieldsValid = true →
      parseHHmm input.time = some (h, mi) →
      getISOWeekdayFromWallClock
          (resolvedWallClock now input.weekday input.weekOffset h mi) =
        WEEKDAY_TO_ISO input.weekday ∧
      ∃ u, calculateAbsoluteDateFromWallClock tzdb now input = .ok u := by
  intro tzdb f now input h mi hz _hvalid hp
  refine ⟨resolved_weekday now input.weekday input.weekOffset h mi, ?_⟩
  rw [calc_eq_resolved tzdb now input h mi hp]
  have hr := parseHHmm_ranges input.time h mi hp
  have hinv := civilFromDays_inv_valid
    (daysFromCivil now.year now.month
      (now.day + (input.weekOffset * 7 +
        (WEEKDAY_TO_ISO input.weekday - getISOWeekdayFromWallClock now))))
  have hval : luxonValidFields
      (resolvedWallClock now input.weekday input.weekOffset h mi).year
      (resolvedWallClock now input.weekday input.weekOffset h mi).month
      (resolvedWallClock now input.weekday input.weekOffset h mi).day
      (resolvedWallClock now input.weekday input.weekOffset h mi).hour
      (resolvedWallClock now input.weekday input.weekOffset h mi).minute
      (resolvedWallClock now input.weekday input.weekOffset h mi).second = true := by
    simp only [resolvedWallClock, luxonValidFields, decide_eq_true_iff]
    exact ⟨hinv.2.1, hinv.2.2.1, hinv.2.2.2.1, hinv.2.2.2.2,
      by omega, by omega, by omega, by omega, by omega, by omega⟩
  have htz : tzdb (resolvedWallClock now input.weekday input.weekOffset h mi).timezone
      = some f := hz
  refine ⟨(fixOffset f (wallSeconds
    (resolvedWallClock now input.weekday input.weekOffset h mi))).1, ?_⟩
  simp only [wallClockToUTC, htz, hval, if_true]

/-- Witness for C3 at the concrete scenario. -/
theorem claim3_witness :
    stdTzdb "Europe/Helsinki" = some helsinkiOffset ∧
    WallClockTime.fieldsValid ⟨2025, 1, 9, 10, 0, 0, "Europe/Helsinki"⟩ = true ∧
    parseHHmm "09:00" = some (9, 0) ∧
    getISOWeekdayFromWallClock
        (resolvedWallClock ⟨2025, 1, 9, 10, 0, 0, "Europe/Helsinki"⟩
          .monday 1 9 0) = WEEKDAY_TO_ISO .monday ∧
    ∃ u, calculateAbsoluteDateFromWallClock stdTzdb
        ⟨2025, 1, 9, 10, 0, 0, "Europe/Helsinki"⟩ ⟨1, .monday, "09:00"⟩ = .ok u :=
  ⟨rfl, by decide, by decide,
    claim3_selfcheck_never_fires stdTzdb helsinkiOffset
      ⟨2025, 1, 9, 10, 0, 0, "Europe/Helsinki"⟩ ⟨1, .monday, "09:00"⟩ 9 0
      rfl (by decide) (by decide)⟩

/-- The spec-side time pattern: two digits, a colon, two digits, with hour in
    [0, 23] and minute in [0, 59]. -/
def timeMatchesHHmm (t : String) : Prop :=
  ∃ c1 c2 c3 c4, t.data = [c1, c2, ':', c3, c4] ∧
    isDigitChar c1 = true ∧ isDigitChar c2 = true ∧
    isDigitChar c3 = true ∧ isDigitChar c4 = true ∧
    10 * digVal c1 + digVal c2 ≤ 23 ∧ 10 * digVal c3 + digVal c4 ≤ 59

theorem parseHHmm_none_iff (t : String) :
    parseHHmm t = none ↔ ¬ timeMatchesHHmm t := by
  constructor
  · intro hnone hmatch
    obtain ⟨c1, c2, c3, c4, hdata, h1, h2, h3, h4, hh, hm⟩ := hmatch
    have hd1 := digVal_range c1 h1
    have hd2 := digVal_range c2 h2
    have hd3 := digVal_range c3 h3
    have hd4 := digVal_range c4 h4
    rw [parseHHmm, hdata] at hnone
    simp only [h1, h2, h3, h4, and_true, true_and, if_true] at hnone
    rw [if_neg (by omega)] at hnone
    exact Option.some_ne_none _ hnone
  · intro hno
    unfold parseHHmm
    split
    · next c1 c2 c c3 c4 hdata =>
      split_ifs with h1 h2
      · rfl
      · exfalso
        apply hno
        obtain ⟨hc, hd1, hd2, hd3, hd4⟩ := h1
        subst hc
        exact ⟨c1, c2, c3, c4, hdata, hd1, hd2, hd3, hd4, by omega, by omega⟩
      · rfl
    · rfl

/-- C8: the resolver throws the invalid-time-format error exactly when the
    time fails the `HH:mm` pattern with hour ∈ [0,23] and minute ∈ [0,59]
    (raises-iff); and on such input the result does not depend on the
    reference wall-clock or the timezone database, so no weekday or
    day-offset computation influences it. -/
theorem claim8_invalid_time_iff :
    (∀ (tzdb : String → Option ZoneOffsetFn) (now : WallClockTime)
        (input : RelativeDateInput),
        calculateAbsoluteDateFromWallClock tzdb now input =
            .error (.invalidTimeFormat input.time) ↔
          ¬ timeMatchesHHmm input.time) ∧
    (∀ (tzdb tzdb' : String → Option ZoneOffsetFn) (now now' : WallClockTime)
        (input : RelativeDateInput),
        ¬ timeMatchesHHmm input.time →
        calculateAbsoluteDateFromWallClock tzdb now input =
          calculateAbsoluteDateFromWallClock tzdb' now' input) := by
  have herr : ∀ (tzdb : String → Option ZoneOffsetFn) (now : WallClockTime)
      (input : RelativeDateInput), parseHHmm input.time = none →
      calculateAbsoluteDateFromWallClock tzdb now input =
        .error (.invalidTimeFormat input.time) := by
    intro tzdb now input hn
    simp only [calculateAbsoluteDateFromWallClock, hn]
  constructor
  · intro tzdb now input
    constructor
    · intro heq
      rw [← parseHHmm_none_iff]
      rcases hpp : parseHHmm input.time with _ | ⟨h, mi⟩
      · rfl
      · exfalso
        rw [calc_eq_resolved tzdb now input h mi hpp] at heq
        unfold wallClockToUTC at heq
        rcases hcase : tzdb (resolvedWallClock now input.weekday
            input.weekOffset h mi).timezone with _ | f
        · rw [hcase] at heq
          simp at heq
        · rw [hcase] at heq
          split_ifs at heq <;> simp at heq
    · intro hno
      exact herr tzdb now input ((parseHHmm_none_iff input.time).mpr hno)
  · intro tzdb tzdb' now now' input hno
    have hn := (parseHHmm_none_iff input.time).mpr hno
    rw [herr tzdb now input hn, herr tzdb' now' input hn]

/-- Witness for C8 on a malformed time ("9:00" lacks the two-digit hour). -/
theorem claim8_witness :
    (¬ timeMatchesHHmm "9:00") ∧
    calculateAbsoluteDateFromWallClock stdTzdb
        ⟨2025, 1, 9, 10, 0, 0, "Europe/Helsinki"⟩ ⟨0, .friday, "9:00"⟩ =
      calculateAbsoluteDateFromWallClock (fun _ => none)
        ⟨1999, 5, 5, 0, 0, 0, "UTC"⟩ ⟨3, .sunday, "9:00"⟩ := by
  have hno : ¬ timeMatchesHHmm "9:00" := by
    rw [← parseHHmm_none_iff]
    decide
  exact ⟨hno,
    claim8_invalid_time_iff.2 stdTzdb (fun _ => none)
      ⟨2025, 1, 9, 10, 0, 0, "Europe/Helsinki"⟩ ⟨1999, 5, 5, 0, 0, 0, "UTC"⟩
      ⟨0, .friday, "9:00"⟩ hno⟩

/-- C2: converting a wall-clock reading to a UTC instant uses the offset in
    effect on the target date (the embedding of `wallClockToUTC` has no access
    to a "current" offset at all): for every reading that denotes an actual
    calendar date and occurs in its zone — whose offset function takes the
    zone's two values — the returned instant projects back to exactly the
    requested fields, in particular across DST transitions. -/
theorem claim2_wall_clock_roundtrip :
    ∀ (tzdb : String → Option ZoneOffsetFn) (w : WallClockTime)
      (f : ZoneOffsetFn) (va vb : Int),
      tzdb w.timezone = some f →
      (∀ t, f t = va ∨ f t = vb) →
      w.fieldsValid = true →
      w.canonical →
      (∃ t, instantToWallSeconds f t = wallSeconds w) →
      ∃ u, wallClockToUTC tzdb w = .ok u ∧
        civilFromSeconds (instantToWallSeconds f u) =
          ⟨w.year, w.month, w.day, w.hour, w.minute, w.second⟩ := by
  intro tzdb w f va vb hz htv hv hcan hocc
  refine ⟨(fixOffset f (wallSeconds w)).1, ?_, ?_⟩
  · simp only [wallClockToUTC, hz, WallClockTime.fieldsValid] at hv ⊢
    rw [if_pos hv]
  · rw [fixOffset_exact f va vb _ htv hocc]
    exact hcan

/-- Witness for C2: 2025-07-10 12:00 Europe/Helsinki, a date in the DST
    period (offset UTC+3, not the UTC+2 in effect in winter). -/
theorem claim2_witness :
    stdTzdb "Europe/Helsinki" = some helsinkiOffset ∧
    (WallClockTime.fieldsValid ⟨2025, 7, 10, 12, 0, 0, "Europe/Helsinki"⟩ = true) ∧
    WallClockTime.canonical ⟨2025, 7, 10, 12, 0, 0, "Europe/Helsinki"⟩ ∧
    instantToWallSeconds helsinkiOffset
        (wallSeconds ⟨2025, 7, 10, 12, 0, 0, "Europe/Helsinki"⟩ - 180 * 60) =
      wallSeconds ⟨2025, 7, 10, 12, 0, 0, "Europe/Helsinki"⟩ ∧
    ∃ u, wallClockToUTC stdTzdb ⟨2025, 7, 10, 12, 0, 0, "Europe/Helsinki"⟩ = .ok u ∧
      civilFromSeconds (instantToWallSeconds helsinkiOffset u) =
        ⟨2025, 7, 10, 12, 0, 0⟩ :=
  ⟨rfl, by decide, by decide, by decide,
    claim2_wall_clock_roundtrip stdTzdb ⟨2025, 7, 10, 12, 0, 0, "Europe/Helsinki"⟩
      helsinkiOffset 120 180 rfl helsinkiOffset_two_valued (by decide) (by decide)
      ⟨wallSeconds ⟨2025, 7, 10, 12, 0, 0, "Europe/Helsinki"⟩ - 180 * 60, by decide⟩⟩

/-- C6 counterexample: with the host process in Europe/Helsinki and a start
    instant of 2025-10-26T00:30:00Z (inside the repeated fall-back hour),
    `calculateEndDate(s, 60)` lands 7200 real seconds after `s`, not 3600:
    `setMinutes` does wall-clock arithmetic in the host timezone, and the
    interval crosses the fall-back transition. -/
theorem claim6_counterexample :
    calculateEndDate helsinkiHost (secondsFromCivil 2025 10 26 0 30 0) 60 ≠
      secondsFromCivil 2025 10 26 0 30 0 + 60 * 60 ∧
    calculateEndDate helsinkiHost (secondsFromCivil 2025 10 26 0 30 0) 60 =
      secondsFromCivil 2025 10 26 0 30 0 + 7200 := by
  constructor <;> decide

/-- C6 (amended): whenever the host zone is a fixed-offset zone (offset
    function constantly `c`, both zone offsets `c` — e.g. a UTC host),
    `calculateEndDate(s, n)` is exactly `n * 60` seconds after `s` in absolute
    time for every instant `s` and every `n` (in particular `n = 0` is the
    identity and `n = 60` adds 3600 s even when the interval straddles a DST
    transition of the *event's* zone, which does not enter the computation),
    and an omitted duration defaults to 60 minutes. -/
theorem claim6_fixed_offset_exact :
    ∀ (hz : HostZone) (c s n : Int),
      (∀ t, hz.f t = c) → hz.loOff = c → hz.hiOff = c →
      calculateEndDate hz s n = s + n * 60 ∧
      calculateEndDate hz s = s + 60 * 60 ∧
      calculateEndDate hz s 0 = s := by
  intro hz c s n hf hlo hhi
  simp only [calculateEndDate, offsetForLocal, hf, hlo, hhi, if_pos rfl]
  omega

/-- Witness for C6 (amended) under a UTC host. -/
theorem claim6_witness :
    (∀ t, utcHost.f t = 0) ∧ utcHost.loOff = 0 ∧ utcHost.hiOff = 0 ∧
    (calculateEndDate utcHost (secondsFromCivil 2025 10 26 0 30 0) 60 =
        secondsFromCivil 2025 10 26 0 30 0 + 60 * 60 ∧
      calculateEndDate utcHost (secondsFromCivil 2025 10 26 0 30 0) =
        secondsFromCivil 2025 10 26 0 30 0 + 60 * 60 ∧
      calculateEndDate utcHost (secondsFromCivil 2025 10 26 0 30 0) 0 =
        secondsFromCivil 2025 10 26 0 30 0) :=
  ⟨fun _ => rfl, rfl, rfl,
    claim6_fixed_offset_exact utcHost 0 (secondsFromCivil 2025 10 26 0 30 0) 60
      (fun _ => rfl) rfl rfl⟩

/-! ## Claim theorems: ICS codec -/

/-- C10: `mapIcsToCalendarEvents` maps each parsed record through
    `mapOneEvent`, which totalizes missing fields: a missing or empty SUMMARY
    yields the title `"Untitled"` (a nonempty SUMMARY is kept verbatim), and a
    missing or empty LOCATION or DESCRIPTION yields `none` — never the empty
    string. -/
theorem claim10_field_totalization :
    ∀ (tzdb : String → Option ZoneOffsetFn) (ics : String) (r : IcsRec),
      mapIcsToCalendarEvents tzdb ics = (icsToJson ics).map (mapOneEvent tzdb) ∧
      ((r.summary = none ∨ r.summary = some "") →
        (mapOneEvent tzdb r).title = "Untitled") ∧
      (∀ s, r.summary = some s → s ≠ "" → (mapOneEvent tzdb r).title = s) ∧
      ((r.location = none ∨ r.location = some "") →
        (mapOneEvent tzdb r).location = none) ∧
      ((r.description = none ∨ r.description = some "") →
        (mapOneEvent tzdb r).description = none) ∧
      (mapOneEvent tzdb r).location ≠ some "" ∧
      (mapOneEvent tzdb r).description ≠ some "" := by
  intro tzdb ics r
  refine ⟨rfl, ?_, ?_, ?_, ?_, ?_, ?_⟩
  · rintro (h | h) <;> simp [mapOneEvent, h]
  · intro s hs hne
    simp [mapOneEvent, hs, hne]
  · rintro (h | h) <;> simp [mapOneEvent, jsOrNull, h]
  · rintro (h | h) <;> simp [mapOneEvent, jsOrNull, h]
  · rcases hl : r.location with _ | s
    · simp [mapOneEvent, jsOrNull, hl]
    · by_cases hse : s = "" <;> simp [mapOneEvent, jsOrNull, hl, hse]
  · rcases hd : r.description with _ | s
    · simp [mapOneEvent, jsOrNull, hd]
    · by_cases hse : s = "" <;> simp [mapOneEvent, jsOrNull, hd, hse]

/-- Witness for C10: a record with SUMMARY unset and empty LOCATION and
    DESCRIPTION strings. -/
theorem claim10_witness :
    (mapOneEvent stdTzdb ⟨some "X", none, some "", none, some ""⟩).title =
      "Untitled" ∧
    (mapOneEvent stdTzdb ⟨some "X", none, some "", none, some ""⟩).location =
      none ∧
    (mapOneEvent stdTzdb ⟨some "X", none, some "", none, some ""⟩).description =
      none :=
  ⟨(claim10_field_totalization stdTzdb ""
      ⟨some "X", none, some "", none, some ""⟩).2.1 (Or.inl rfl),
   (claim10_field_totalization stdTzdb ""
      ⟨some "X", none, some "", none, some ""⟩).2.2.2.1 (Or.inr rfl),
   (claim10_field_totalization stdTzdb ""
      ⟨some "X", none, some "", none, some ""⟩).2.2.2.2.1 (Or.inr rfl)⟩

/-- C7: `parseIcsDate` is a total function into `Option` (the embedding of
    "never throws" — every control path of the source returns a value or
    `null`), and on any input whose date token after stripping the TZID prefix
    and trailing numeric offset fails the anchored `YYYYMMDD(THHMMSS)?Z?`
    pattern it returns `none`. -/
theorem claim7_malformed_yields_none :
    ∀ (tzdb : String → Option ZoneOffsetFn) (s : String),
      (parseIcsDate tzdb s = none ∨ ∃ t, parseIcsDate tzdb s = some t) ∧
      (mainMatch (stripZoneMarkers s).1.data = none →
        parseIcsDate tzdb s = none) := by
  intro tzdb s
  constructor
  · rcases h : parseIcsDate tzdb s with _ | t
    · exact Or.inl rfl
    · exact Or.inr ⟨t, rfl⟩
  · intro h
    by_cases h0 : s = ""
    · simp [parseIcsDate, h0]
    · simp [parseIcsDate, h0, h]

/-- Witness for C7: the malformed token `2025-13-40`. -/
theorem claim7_witness :
    mainMatch (stripZoneMarkers "2025-13-40").1.data = none ∧
    parseIcsDate stdTzdb "2025-13-40" = none :=
  ⟨by decide, (claim7_malformed_yields_none stdTzdb "2025-13-40").2 (by decide)⟩

/-- C4 counterexample: encode an event whose description is `"A, B; C\nD"`;
    the decode path (line split, `decodeURI`, `trim`) yields the escaped text
    `A\, B\; C\nD` verbatim — the TEXT escaping is never unescaped — so the
    decoded description differs from the original string. -/
theorem claim4_counterexample :
    (mapIcsToCalendarEvents stdTzdb
        (generateICal "uid-1" 0
          ⟨"Meeting", 100, 200, some "A, B; C\nD", none, none, none⟩)).map
      CalendarEvent.description = [some "A\\, B\\; C\\nD"] ∧
    ("A\\, B\\; C\\nD" : String) ≠ "A, B; C\nD" := by
  constructor <;> decide

/-- C9 counterexample: a folded continuation line inside a VALARM DESCRIPTION
    is appended to the *event's* `description` property — the `lastKey`
    continuation handling ignores `isAlarm` — so alarm content contaminates
    the decoded description (`"Realcontinued"` instead of `"Real"`). -/
theorem claim9_counterexample :
    (icsToJson ("BEGIN:VCALENDAR\r\nBEGIN:VEVENT\r\nSUMMARY:S\r\nDESCRIPTION:Real\r\nBEGIN:VALARM\r\nDESCRIPTION:Alarm body\r\n continued\r\nEND:VALARM\r\nEND:VEVENT\r\nEND:VCALENDAR")).map
      IcsRec.description = [some "Realcontinued"] ∧
    some ("Realcontinued" : String) ≠ some "Real" := by
  constructor <;> decide

/-- C5 counterexample: at year 10000 the emitted token `100000101T000000Z`
    has a five-digit year; the anchored eight-digit date pattern cannot absorb
    it, and decoding returns `none` instead of the encoded instant. -/
theorem claim5_counterexample :
    toCalDavUTC (secondsFromCivil 10000 1 1 0 0 0) = "100000101T000000Z" ∧
    parseIcsDate stdTzdb (toCalDavUTC (secondsFromCivil 10000 1 1 0 0 0)) =
      none := by
  constructor <;> decide

/-- C4 (amended): decoding does not reverse the TEXT escaping — for every
    nonempty description `d` free of carriage returns, the decoded description
    of `encode` output is the cleaned *escaped* text
    (`jsOrNull (clean (escapeText d))`), not `d` itself. -/
theorem claim4_decode_yields_escaped :
    ∀ d : String, d ≠ "" → (∀ c ∈ d.data, c ≠ '\r') →
      (mapIcsToCalendarEvents stdTzdb
          (generateICal "uid-1" 0
            ⟨"Meeting", 100, 200, some d, none, none, none⟩)).map
        CalendarEvent.description = [jsOrNull (some (clean (escapeText d)))] := by
  intro d hdne hcr
  have hfree : ∀ c ∈ (escapeText d).data, c ≠ '\r' ∧ c ≠ '\n' := by
    intro c hc
    constructor
    · intro hcEq
      rcases escapeChars_subset d.data c hc with h | h | h
      · exact (hcr c h) hcEq
      · rw [hcEq] at h; exact absurd h (by decide)
      · rw [hcEq] at h; exact absurd h (by decide)
    · intro hcEq
      rw [hcEq] at hc
      exact escapeChars_no_newline d.data hc
  have hgen : generateICal "uid-1" 0 ⟨"Meeting", 100, 200, some d, none, none, none⟩ =
      joinCRLF
        (["BEGIN:VCALENDAR", "VERSION:2.0", "PRODID:-//Standardized ICal Lib//EN",
          "CALSCALE:GREGORIAN", "BEGIN:VEVENT",
          "UID:" ++ ("uid-1" ++ "@" ++ "mcp-server"),
          "DTSTAMP:" ++ toCalDavUTC 0, "DTSTART:" ++ toCalDavUTC 100,
          "DTEND:" ++ toCalDavUTC 200, "SUMMARY:" ++ escapeText "Meeting",
          "DESCRIPTION:" ++ escapeText d, "END:VEVENT", "END:VCALENDAR"]) := by
    simp [generateICal, hdne]
  have hfreeAll : ∀ l ∈
      (["BEGIN:VCALENDAR", "VERSION:2.0", "PRODID:-//Standardized ICal Lib//EN",
        "CALSCALE:GREGORIAN", "BEGIN:VEVENT",
        "UID:" ++ ("uid-1" ++ "@" ++ "mcp-server"),
        "DTSTAMP:" ++ toCalDavUTC 0, "DTSTART:" ++ toCalDavUTC 100,
        "DTEND:" ++ toCalDavUTC 200, "SUMMARY:" ++ escapeText "Meeting",
        "DESCRIPTION:" ++ escapeText d, "END:VEVENT", "END:VCALENDAR"] :
        List String), ∀ c ∈ l.data, c ≠ '\r' ∧ c ≠ '\n' := by
    intro l hl
    simp only [List.mem_cons, List.not_mem_nil, or_false] at hl
    rcases hl with rfl|rfl|rfl|rfl|rfl|rfl|rfl|rfl|rfl|rfl|rfl|rfl|rfl
    all_goals try decide
    intro c hc
    rw [String.data_append] at hc
    rcases List.mem_append.mp hc with h | h
    · have hcon : ∀ x ∈ "DESCRIPTION:".data, x ≠ '\r' ∧ x ≠ '\n' := by decide
      exact hcon c h
    · exact hfree c h
  rw [hgen, mapIcsToCalendarEvents, icsToJson, icsLines_join _ hfreeAll (by simp)]
  rw [show (["BEGIN:VCALENDAR", "VERSION:2.0",
      "PRODID:-//Standardized ICal Lib//EN", "CALSCALE:GREGORIAN",
      "BEGIN:VEVENT", "UID:" ++ ("uid-1" ++ "@" ++ "mcp-server"),
      "DTSTAMP:" ++ toCalDavUTC 0, "DTSTART:" ++ toCalDavUTC 100,
      "DTEND:" ++ toCalDavUTC 200, "SUMMARY:" ++ escapeText "Meeting",
      "DESCRIPTION:" ++ escapeText d, "END:VEVENT", "END:VCALENDAR"] :
      List String) =
    ["BEGIN:VCALENDAR", "VERSION:2.0", "PRODID:-//Standardized ICal Lib//EN",
     "CALSCALE:GREGORIAN", "BEGIN:VEVENT",
     "UID:" ++ ("uid-1" ++ "@" ++ "mcp-server"),
     "DTSTAMP:" ++ toCalDavUTC 0, "DTSTART:" ++ toCalDavUTC 100,
     "DTEND:" ++ toCalDavUTC 200, "SUMMARY:" ++ escapeText "Meeting"] ++
    (("DESCRIPTION:" ++ escapeText d) :: ["END:VEVENT", "END:VCALENDAR"]) from rfl]
  rw [List.foldl_append]
  have h10 : List.foldl stepLine initSt
      ["BEGIN:VCALENDAR", "VERSION:2.0", "PRODID:-//Standardized ICal Lib//EN",
       "CALSCALE:GREGORIAN", "BEGIN:VEVENT",
       "UID:" ++ ("uid-1" ++ "@" ++ "mcp-server"),
       "DTSTAMP:" ++ toCalDavUTC 0, "DTSTART:" ++ toCalDavUTC 100,
       "DTEND:" ++ toCalDavUTC 200, "SUMMARY:" ++ escapeText "Meeting"] =
      ⟨[], ⟨some "19700101T000140Z", some "19700101T000320Z", none,
        some "Meeting", none⟩, some .summary, false⟩ := by decide
  rw [h10]
  simp only [List.foldl_cons, List.foldl_nil]
  rw [stepLine_description _ _ rfl, stepLine_endEvent, stepLine_endCal]
  simp [mapOneEvent, IcsRec.set]

/-- Witness for C4 (amended): the example description `"A, B; C\nD"`. -/
theorem claim4_witness :
    ("A, B; C\nD" : String) ≠ "" ∧
    (∀ c ∈ ("A, B; C\nD" : String).data, c ≠ '\r') ∧
    (mapIcsToCalendarEvents stdTzdb
        (generateICal "uid-1" 0
          ⟨"Meeting", 100, 200, some "A, B; C\nD", none, none, none⟩)).map
      CalendarEvent.description =
      [jsOrNull (some (clean (escapeText "A, B; C\nD")))] :=
  ⟨by decide, by decide,
    claim4_decode_yields_escaped "A, B; C\nD" (by decide) (by decide)⟩


/-- C9 (amended): on inputs with no folded (continuation) lines, removing
    every DESCRIPTION line that occurs inside a VALARM block does not change
    the decoder's output — alarm descriptions are ignored. (The unamended
    claim fails for folded alarm descriptions; see the counterexample.) -/
theorem claim9_filter_equiv :
    ∀ ics : String, (∀ l ∈ icsLines ics, isFoldLine l = false) →
      icsToJson ics =
        ((alarmDescFilter false (icsLines ics)).foldl stepLine initSt).arr := by
  intro ics h
  exact foldl_filter_arr (icsLines ics) initSt initSt h rfl rfl rfl

/-- Witness for C9 (amended): a VEVENT with a single-line alarm description. -/
theorem claim9_witness :
    (∀ l ∈ icsLines "BEGIN:VCALENDAR\r\nBEGIN:VEVENT\r\nSUMMARY:S\r\nDESCRIPTION:Real\r\nBEGIN:VALARM\r\nDESCRIPTION:Alarm body\r\nEND:VALARM\r\nEND:VEVENT\r\nEND:VCALENDAR", isFoldLine l = false) ∧
    icsToJson "BEGIN:VCALENDAR\r\nBEGIN:VEVENT\r\nSUMMARY:S\r\nDESCRIPTION:Real\r\nBEGIN:VALARM\r\nDESCRIPTION:Alarm body\r\nEND:VALARM\r\nEND:VEVENT\r\nEND:VCALENDAR" =
      ((alarmDescFilter false (icsLines "BEGIN:VCALENDAR\r\nBEGIN:VEVENT\r\nSUMMARY:S\r\nDESCRIPTION:Real\r\nBEGIN:VALARM\r\nDESCRIPTION:Alarm body\r\nEND:VALARM\r\nEND:VEVENT\r\nEND:VCALENDAR")).foldl stepLine initSt).arr :=
  ⟨by decide, claim9_filter_equiv "BEGIN:VCALENDAR\r\nBEGIN:VEVENT\r\nSUMMARY:S\r\nDESCRIPTION:Real\r\nBEGIN:VALARM\r\nDESCRIPTION:Alarm body\r\nEND:VALARM\r\nEND:VEVENT\r\nEND:VCALENDAR" (by decide)⟩


/-- C5 (amended): for every instant `t` whose UTC year lies in 0–9999 — the
    range in which luxon's `yyyy` field is exactly four digits — decoding the
    `YYYYMMDDTHHMMSSZ` token emitted by the encoder returns exactly `t`, to
    the second, for every timezone database. (Outside that range the wire
    form grows a fifth year digit and decoding fails; see the
    counterexample.) -/
theorem claim5_roundtrip_in_range :
    ∀ (tzdb : String → Option ZoneOffsetFn) (t : Int),
      0 ≤ (civilFromSeconds t).year → (civilFromSeconds t).year ≤ 9999 →
      parseIcsDate tzdb (toCalDavUTC t) = some t := by
  intro tzdb t hy0 hy1
  have hinv := civilFromDays_inv_valid (t / 86400)
  have hhms := civilFromSeconds_hms_valid t
  have hmoB : 1 ≤ (civilFromSeconds t).month ∧ (civilFromSeconds t).month ≤ 12 :=
    ⟨hinv.2.1, hinv.2.2.1⟩
  have hdB : 1 ≤ (civilFromSeconds t).day ∧
      (civilFromSeconds t).day ≤
        daysInMonth (civilFromSeconds t).year (civilFromSeconds t).month :=
    ⟨hinv.2.2.2.1, hinv.2.2.2.2⟩
  have hdB99 : (civilFromSeconds t).day ≤ 31 := by
    have := hdB.2
    unfold daysInMonth at this
    split_ifs at this <;> omega
  have hg1 : isDigitChar (digitChar10 ((civilFromSeconds t).year / 1000)) = true :=
    digitChar10_isDigit _ (by omega) (by omega)
  have hg2 : isDigitChar (digitChar10 ((civilFromSeconds t).year / 100 % 10)) = true :=
    digitChar10_isDigit _ (by omega) (by omega)
  have hg3 : isDigitChar (digitChar10 ((civilFromSeconds t).year / 10 % 10)) = true :=
    digitChar10_isDigit _ (by omega) (by omega)
  have hg4 : isDigitChar (digitChar10 ((civilFromSeconds t).year % 10)) = true :=
    digitChar10_isDigit _ (by omega) (by omega)
  have hg5 : isDigitChar (digitChar10 ((civilFromSeconds t).month / 10)) = true :=
    digitChar10_isDigit _ (by omega) (by omega)
  have hg6 : isDigitChar (digitChar10 ((civilFromSeconds t).month % 10)) = true :=
    digitChar10_isDigit _ (by omega) (by omega)
  have hg7 : isDigitChar (digitChar10 ((civilFromSeconds t).day / 10)) = true :=
    digitChar10_isDigit _ (by omega) (by omega)
  have hg8 : isDigitChar (digitChar10 ((civilFromSeconds t).day % 10)) = true :=
    digitChar10_isDigit _ (by omega) (by omega)
  have hg9 : isDigitChar (digitChar10 ((civilFromSeconds t).hour / 10)) = true :=
    digitChar10_isDigit _ (by omega) (by omega)
  have hg10 : isDigitChar (digitChar10 ((civilFromSeconds t).hour % 10)) = true :=
    digitChar10_isDigit _ (by omega) (by omega)
  have hg11 : isDigitChar (digitChar10 ((civilFromSeconds t).minute / 10)) = true :=
    digitChar10_isDigit _ (by omega) (by omega)
  have hg12 : isDigitChar (digitChar10 ((civilFromSeconds t).minute % 10)) = true :=
    digitChar10_isDigit _ (by omega) (by omega)
  have hg13 : isDigitChar (digitChar10 ((civilFromSeconds t).second / 10)) = true :=
    digitChar10_isDigit _ (by omega) (by omega)
  have hg14 : isDigitChar (digitChar10 ((civilFromSeconds t).second % 10)) = true :=
    digitChar10_isDigit _ (by omega) (by omega)
  have hfmt2g : ∀ v : Int, 0 ≤ v → v ≤ 99 →
      fmt2 v = ⟨[digitChar10 (v / 10), digitChar10 (v % 10)]⟩ :=
    fun v h0 h1 => by rw [fmt2, if_pos ⟨h0, h1⟩]
  have hdata : (toCalDavUTC t).data =
      [digitChar10 ((civilFromSeconds t).year / 1000),
       digitChar10 ((civilFromSeconds t).year / 100 % 10),
       digitChar10 ((civilFromSeconds t).year / 10 % 10),
       digitChar10 ((civilFromSeconds t).year % 10),
       digitChar10 ((civilFromSeconds t).month / 10),
       digitChar10 ((civilFromSeconds t).month % 10),
       digitChar10 ((civilFromSeconds t).day / 10),
       digitChar10 ((civilFromSeconds t).day % 10), 'T',
       digitChar10 ((civilFromSeconds t).hour / 10),
       digitChar10 ((civilFromSeconds t).hour % 10),
       digitChar10 ((civilFromSeconds t).minute / 10),
       digitChar10 ((civilFromSeconds t).minute % 10),
       digitChar10 ((civilFromSeconds t).second / 10),
       digitChar10 ((civilFromSeconds t).second % 10), 'Z'] := by
    rw [toCalDavUTC, fmt4, if_pos ⟨hy0, hy1⟩,
      hfmt2g _ (by omega) (by omega), hfmt2g _ (by omega) (by omega),
      hfmt2g _ (by omega) (by omega), hfmt2g _ (by omega) (by omega),
      hfmt2g _ (by omega) (by omega)]
    simp [String.data_append]
  have hclass : ∀ c ∈ (toCalDavUTC t).data,
      isDigitChar c = true ∨ c = 'T' ∨ c = 'Z' := by
    rw [hdata]
    intro c hc
    simp only [List.mem_cons, List.not_mem_nil, or_false] at hc
    rcases hc with rfl|rfl|rfl|rfl|rfl|rfl|rfl|rfl|rfl|rfl|rfl|rfl|rfl|rfl|rfl|rfl
    · exact Or.inl hg1
    · exact Or.inl hg2
    · exact Or.inl hg3
    · exact Or.inl hg4
    · exact Or.inl hg5
    · exact Or.inl hg6
    · exact Or.inl hg7
    · exact Or.inl hg8
    · exact Or.inr (Or.inl rfl)
    · exact Or.inl hg9
    · exact Or.inl hg10
    · exact Or.inl hg11
    · exact Or.inl hg12
    · exact Or.inl hg13
    · exact Or.inl hg14
    · exact Or.inr (Or.inr rfl)
  have hnotI : 'I' ∉ (toCalDavUTC t).data := by
    intro hmem
    rcases hclass 'I' hmem with hcl | hcl | hcl
    · exact absurd hcl (by decide)
    · exact absurd hcl (by decide)
    · exact absurd hcl (by decide)
  have hcontains := containsSub_tzid_false (toCalDavUTC t).data hnotI
  have hsigns : ∀ c ∈ (toCalDavUTC t).data, c ≠ '+' ∧ c ≠ '-' := by
    intro c hc
    rcases hclass c hc with hcl | hcl | hcl
    · exact ⟨(digit_char_props c hcl).2.2.1, (digit_char_props c hcl).2.2.2.1⟩
    · subst hcl; exact ⟨by decide, by decide⟩
    · subst hcl; exact ⟨by decide, by decide⟩
  have hoff := offsetSplit_no_sign (toCalDavUTC t).data hsigns
  have hstrip : stripZoneMarkers (toCalDavUTC t) = (toCalDavUTC t, none, none) := by
    simp [stripZoneMarkers, hcontains, hoff]
  have hne : toCalDavUTC t ≠ "" := by
    intro he
    rw [he] at hdata
    simp at hdata
  have hlast : lastChar (toCalDavUTC t).data = some 'Z' := by
    rw [hdata]
    show lastChar
      ([digitChar10 ((civilFromSeconds t).year / 1000),
        digitChar10 ((civilFromSeconds t).year / 100 % 10),
        digitChar10 ((civilFromSeconds t).year / 10 % 10),
        digitChar10 ((civilFromSeconds t).year % 10),
        digitChar10 ((civilFromSeconds t).month / 10),
        digitChar10 ((civilFromSeconds t).month % 10),
        digitChar10 ((civilFromSeconds t).day / 10),
        digitChar10 ((civilFromSeconds t).day % 10), 'T',
        digitChar10 ((civilFromSeconds t).hour / 10),
        digitChar10 ((civilFromSeconds t).hour % 10),
        digitChar10 ((civilFromSeconds t).minute / 10),
        digitChar10 ((civilFromSeconds t).minute % 10),
        digitChar10 ((civilFromSeconds t).second / 10),
        digitChar10 ((civilFromSeconds t).second % 10)] ++ ['Z']) = some 'Z'
    exact lastChar_app _ _
  have hmain : mainMatch (toCalDavUTC t).data =
      some ⟨(civilFromSeconds t).year, (civilFromSeconds t).month,
        (civilFromSeconds t).day, (civilFromSeconds t).hour,
        (civilFromSeconds t).minute, (civilFromSeconds t).second⟩ := by
    rw [hdata, mainMatch_utc16 _ _ _ _ _ _ _ _ _ _ _ _ _ _
      hg1 hg2 hg3 hg4 hg5 hg6 hg7 hg8 hg9 hg10 hg11 hg12 hg13 hg14]
    have hv1 : digVal (digitChar10 ((civilFromSeconds t).year / 1000)) = (civilFromSeconds t).year / 1000 :=
      digVal_digitChar10 _ (by omega) (by omega)
    have hv2 : digVal (digitChar10 ((civilFromSeconds t).year / 100 % 10)) = (civilFromSeconds t).year / 100 % 10 :=
      digVal_digitChar10 _ (by omega) (by omega)
    have hv3 : digVal (digitChar10 ((civilFromSeconds t).year / 10 % 10)) = (civilFromSeconds t).year / 10 % 10 :=
      digVal_digitChar10 _ (by omega) (by omega)
    have hv4 : digVal (digitChar10 ((civilFromSeconds t).year % 10)) = (civilFromSeconds t).year % 10 :=
      digVal_digitChar10 _ (by omega) (by omega)
    have hv5 : digVal (digitChar10 ((civilFromSeconds t).month / 10)) = (civilFromSeconds t).month / 10 :=
      digVal_digitChar10 _ (by omega) (by omega)
    have hv6 : digVal (digitChar10 ((civilFromSeconds t).month % 10)) = (civilFromSeconds t).month % 10 :=
      digVal_digitChar10 _ (by omega) (by omega)
    have hv7 : digVal (digitChar10 ((civilFromSeconds t).day / 10)) = (civilFromSeconds t).day / 10 :=
      digVal_digitChar10 _ (by omega) (by omega)
    have hv8 : digVal (digitChar10 ((civilFromSeconds t).day % 10)) = (civilFromSeconds t).day % 10 :=
      digVal_digitChar10 _ (by omega) (by omega)
    have hv9 : digVal (digitChar10 ((civilFromSeconds t).hour / 10)) = (civilFromSeconds t).hour / 10 :=
      digVal_digitChar10 _ (by omega) (by omega)
    have hv10 : digVal (digitChar10 ((civilFromSeconds t).hour % 10)) = (civilFromSeconds t).hour % 10 :=
      digVal_digitChar10 _ (by omega) (by omega)
    have hv11 : digVal (digitChar10 ((civilFromSeconds t).minute / 10)) = (civilFromSeconds t).minute / 10 :=
      digVal_digitChar10 _ (by omega) (by omega)
    have hv12 : digVal (digitChar10 ((civilFromSeconds t).minute % 10)) = (civilFromSeconds t).minute % 10 :=
      digVal_digitChar10 _ (by omega) (by omega)
    have hv13 : digVal (digitChar10 ((civilFromSeconds t).second / 10)) = (civilFromSeconds t).second / 10 :=
      digVal_digitChar10 _ (by omega) (by omega)
    have hv14 : digVal (digitChar10 ((civilFromSeconds t).second % 10)) = (civilFromSeconds t).second % 10 :=
      digVal_digitChar10 _ (by omega) (by omega)
    simp only [val2, hv1, hv2, hv3, hv4, hv5, hv6, hv7, hv8, hv9, hv10, hv11,
      hv12, hv13, hv14, Option.some.injEq, CivilDateTime.mk.injEq]
    refine ⟨by omega, by omega, by omega, by omega, by omega, by omega⟩
  have hvalid : luxonValidFields (civilFromSeconds t).year
      (civilFromSeconds t).month (civilFromSeconds t).day
      (civilFromSeconds t).hour (civilFromSeconds t).minute
      (civilFromSeconds t).second = true := by
    simp only [luxonValidFields, decide_eq_true_eq]
    exact ⟨hmoB.1, hmoB.2, hdB.1, hdB.2, hhms.1, hhms.2.1, hhms.2.2.1,
      hhms.2.2.2.1, hhms.2.2.2.2.1, hhms.2.2.2.2.2⟩
  have hfin := parseIcsDate_utc tzdb (toCalDavUTC t) _ _ _ _ _ _
    hne hstrip hmain hvalid hlast
  rwa [seconds_civil_inv] at hfin

/-- Witness for C5 (amended): the instant 2025-01-06T06:00:00Z. -/
theorem claim5_witness :
    0 ≤ (civilFromSeconds 1736143200).year ∧
    (civilFromSeconds 1736143200).year ≤ 9999 ∧
    parseIcsDate stdTzdb (toCalDavUTC 1736143200) = some 1736143200 :=
  ⟨by decide, by decide,
    claim5_roundtrip_in_range stdTzdb 1736143200 (by decide) (by decide)⟩

end McpLabrat
